import Mathlib

/-!
# Verification of the DAO-coin limit-order conversion engine (routes/dao_coin_exchange.go)

Shallow embedding of the fixed-point conversion engine of this repository:
the rate converter (`CalculateScaledExchangeRate`, `CalculateExchangeRateAsFloat`),
the quantity converter (`CalculateQuantityToFillAsBaseUnits`, `CalculateQuantityToFillAsFloat`),
the decimal formatter (`formatFloatAsString`, `getNumDigits`) and the unit model
(`getDESOToDAOCoinBaseUnitsScalingFactor`, the `lib` scaling constants).

Modelling conventions:
* Machine big integers (`uint256.Int`, `big.Int`) are `ℕ`/`ℤ` with explicit
  `2^256` bounds where the code checks overflow.
* `float64` values are modelled by their exact rational value (`ℚ`): the Go code
  never performs float arithmetic on them, it only truncates them to a big
  integer (`big.Float.Int`, truncation toward zero), renders them in fixed-point
  decimal (`fmt.Sprintf` with the `f` verb, correctly rounded, ties to even) and
  parses decimal strings into them (`strconv.ParseFloat`, correctly rounded to
  the nearest binary64 value, ties to even, modelled by `float64Round`).
* Fallible Go functions returning `(value, error)` become `Except ConvError`.
  The spec's error taxonomy (ParseError / RangeError / OverflowError) classifies
  the untyped `errors.Errorf` failures of the source.
* Digit loops are translated with an explicit fuel parameter so that every
  definition is executable by the kernel; `digitFuel = 400` covers every value
  the engine can see (all of them are below `2^1024 < 10^309`).
-/

/-- The spec's error taxonomy for the conversion engine (spec section 7):
malformed text, value too small (exact zero), and fixed-width overflow. -/
inductive ConvError : Type where
  | parseError : ConvError
  | rangeError : ConvError
  | overflowError : ConvError
deriving DecidableEq, Repr

deriving instance DecidableEq for Except

/-- Fuel bound for digit recursions: every integer handled by the engine is
below `2^1024 < 10^309 < 10^400` (float64 range times the scale factors). -/
def digitFuel : ℕ := 400

/-- The character for a single decimal digit (`0 ≤ d ≤ 9`). -/
def digitChar (d : ℕ) : Char :=
  match d with
  | 0 => '0' | 1 => '1' | 2 => '2' | 3 => '3' | 4 => '4'
  | 5 => '5' | 6 => '6' | 7 => '7' | 8 => '8' | _ => '9'

/-- The numeric value of a decimal digit character. -/
def charDigit (c : Char) : ℕ := c.toNat - 48

/-- Decimal digit test, as in Go's per-character digit checks. -/
def isDigitChar (c : Char) : Bool := 48 ≤ c.toNat && c.toNat ≤ 57

/-- Base-10 digits of `n`, least significant first, by repeated division by 10
(the digit loop shared by the source's formatters), with explicit fuel. -/
def natDigitsRev (fuel n : ℕ) : List ℕ :=
  match fuel with
  | 0 => []
  | fuel + 1 => if n = 0 then [] else n % 10 :: natDigitsRev fuel (n / 10)

/-- Source `getNumDigits` on a non-negative big integer: the number of
base-10 digits, `0` for `0`.  (The loop itself, including its behaviour on
negative inputs, is modelled separately by `getNumDigitsLoop`.) -/
def getNumDigitsNat (n : ℕ) : ℕ := (natDigitsRev digitFuel n).length

/-- Decimal rendering of a natural number, as Go's `fmt.Sprintf` `d` verb. -/
def natToString (n : ℕ) : String :=
  String.mk (if n = 0 then ['0'] else ((natDigitsRev digitFuel n).map digitChar).reverse)

/-- Value of a most-significant-first decimal digit string. -/
def digitsVal (cs : List Char) : ℕ := Nat.ofDigits 10 ((cs.map charDigit).reverse)

/-- Split a character list at its unique `'.'`; `none` if there are two or
more dots, `(cs, [])` if there is none. -/
def splitOnDot : List Char → Option (List Char × List Char)
  | [] => some ([], [])
  | c :: cs =>
    if c = '.' then
      if '.' ∈ cs then none else some ([], cs)
    else
      match splitOnDot cs with
      | none => none
      | some (a, b) => some (c :: a, b)

/-- Left-pad a digit string with `'0'` to width `w`. -/
def padLeftZeros (s : List Char) (w : ℕ) : List Char := List.replicate (w - s.length) '0' ++ s

/-- Number of characters after the decimal point of a rendered decimal string
(`0` when there is no decimal point). -/
def fractionPartLen : Option (List Char × List Char) → ℕ
  | some (_, fp) => fp.length
  | none => 0

def fractionDigitCount (s : String) : ℕ := fractionPartLen (splitOnDot s.data)

/-- Go's `big.Float.Int`: truncation of the exact value toward zero
(`Int.tdiv` is Lean's truncating division). -/
def ratTrunc (q : ℚ) : ℤ := q.num.tdiv q.den

/-- Nearest integer with ties to even: the rounding used by Go's correctly
rounded decimal formatting (`fmt` `f` verb) and string-to-float conversion. -/
def roundHalfEvenInt (q : ℚ) : ℤ :=
  let fl := ⌊q⌋
  let r := q - fl
  if r < 1 / 2 then fl
  else if 1 / 2 < r then fl + 1
  else if fl % 2 = 0 then fl else fl + 1

/-- The binary exponent of a positive rational: the unique `e` with
`2^e ≤ q < 2^(e+1)`. -/
def qExp2 (q : ℚ) : ℤ :=
  let g : ℤ := (Nat.log2 q.num.natAbs : ℤ) - (Nat.log2 q.den : ℤ)
  if (2 : ℚ) ^ g ≤ q then g else g - 1

/-- Model of IEEE-754 binary64 rounding (round to nearest, ties to even) for
values in the normal range: the exact value of `strconv.ParseFloat`'s result.
Every value this engine parses lies well inside the normal range, so subnormal
and overflow handling are irrelevant. -/
def float64Round (q : ℚ) : ℚ :=
  let e : ℤ := qExp2 q - 52
  (roundHalfEvenInt (q / 2 ^ e) : ℚ) * 2 ^ e


/-! ## The engine's scaling constants (`lib` constants, spec section 6)

`OneE38` is the canonical rate scale `RATE_SCALE`, `NanosPerUnit` the $DESO
(Reference) base-unit scale `S_ref`, `BaseUnitsPerCoin` the DAO-coin (Generic)
base-unit scale `S_gen`.  `uint256Bound` is the capacity of the 256-bit
unsigned canonical integer type. -/

def OneE38 : ℕ := 10 ^ 38

def NanosPerUnit : ℕ := 10 ^ 9

def BaseUnitsPerCoin : ℕ := 10 ^ 18

def uint256Bound : ℕ := 2 ^ 256

/-- Final range/overflow checks of the scaled-decimal parser: an exact zero is
a RangeError ("value too small to represent"), a value that does not fit the
256-bit canonical integer is an OverflowError. -/
def checkScaled (r : ℕ) : Except ConvError ℕ :=
  if r = 0 then .error .rangeError
  else if uint256Bound ≤ r then .error .overflowError
  else .ok r

/-- Modelled from the spec: `ParseDecimalToScaled` (spec section 4.2), the
behaviour of `lib.ScaleFloatFormatStringToUint256` from the deso-core
dependency, whose body is not under `src/`.  Accepts a non-negative decimal
string (optional integer part, optional `.` followed by fraction digits, at
most one dot, no other characters, not empty, no sign), computes
`integer_part * F + fractional_part * F / 10 ^ fractional_digit_count` in
exact integer arithmetic (truncating), and applies `checkScaled`. -/
def parseDecimalParts : Option (List Char × List Char) → ℕ → Except ConvError ℕ
  | none, _ => .error .parseError
  | some (ip, fp), F =>
    if ip.isEmpty && fp.isEmpty then .error .parseError
    else if ip.all isDigitChar && fp.all isDigitChar then
      checkScaled (digitsVal ip * F + digitsVal fp * F / 10 ^ fp.length)
    else .error .parseError

def ParseDecimalToScaled (text : String) (F : ℕ) : Except ConvError ℕ :=
  parseDecimalParts (splitOnDot text.data) F

/-- Modelled from the spec: `lib.CalculateScaledExchangeRateFromString` of the
deso-core dependency — parse a decimal price string against the canonical rate
scale `RATE_SCALE = 10^38`. -/
def CalculateScaledExchangeRateFromString (s : String) : Except ConvError ℕ :=
  ParseDecimalToScaled s OneE38

/-- Go `fmt.Sprintf` with verb `%.*f` applied to the integer `scaled` =
round(f * 10^N): integer part, dot, and the fraction left-padded to exactly
`N` digits; no dot at all when `N = 0`. -/
def sprintfFixedNat (scaled N : ℕ) : String :=
  if N = 0 then natToString scaled
  else String.mk ((natToString (scaled / 10 ^ N)).data ++
    '.' :: padLeftZeros (natToString (scaled % 10 ^ N)).data N)

/-- Go's `fmt.Sprintf` fixed-point verb with precision `N` on a non-negative
float value `f`: the decimal expansion of `f` correctly rounded (ties to even)
to `N` digits after the point. -/
def sprintfFixed (f : ℚ) (N : ℕ) : String :=
  sprintfFixedNat (roundHalfEvenInt (f * 10 ^ N)).toNat N

/-- Source `formatFloatAsString`: render a non-negative float with 15
significant digits.  If the integer part has `d ≤ 15` digits, print with
`15 - d` digits after the point; otherwise truncate the integer part to its
top 15 digits (zeroing the rest) and append ".0".
(`big.Float.Int` truncation toward zero is `ratTrunc`; the source's
`getNumDigits` loop on the non-negative values in scope is `getNumDigitsNat`.) -/
def formatFloatAsString (f : ℚ) : String :=
  let fAsBigInt : ℕ := (ratTrunc f).toNat
  let supportedPrecisionDigits : ℕ := 15
  let numWholeNumberDigits := getNumDigitsNat fAsBigInt
  if numWholeNumberDigits ≤ supportedPrecisionDigits then
    sprintfFixed f (supportedPrecisionDigits - numWholeNumberDigits)
  else
    let divisorToDropDigits := 10 ^ (numWholeNumberDigits - supportedPrecisionDigits)
    String.mk ((natToString (fAsBigInt / divisorToDropDigits * divisorToDropDigits)).data
      ++ ['.', '0'])

/-- Exact rational value denoted by a rendered decimal string
(integer part, dot, fraction): the value `strconv.ParseFloat` reads before
rounding it to the nearest binary64.  Only applied to the engine's own
well-formed renderings. -/
def decimalParts : Option (List Char × List Char) → ℚ
  | some (ip, fp) => (digitsVal ip : ℚ) + (digitsVal fp : ℚ) / 10 ^ fp.length
  | none => 0

def decimalStrVal (s : String) : ℚ := decimalParts (splitOnDot s.data)

/-- Source `getDESOToDAOCoinBaseUnitsScalingFactor`: `1e18 / 1e9`, the
factor `K` between DAO-coin base units and $DESO nanos. -/
def getDESOToDAOCoinBaseUnitsScalingFactor : ℕ := BaseUnitsPerCoin / NanosPerUnit

/-- The $DESO (Reference) correction block shared by the rate converters:
`* K` with a 256-bit overflow check when the buying coin is $DESO (empty
identifier), `/ K` rejecting a zero quotient when the selling coin is $DESO,
unchanged otherwise. -/
def applyDESOScalingCorrection (buyingCoin sellingCoin : String) (raw : ℕ) :
    Except ConvError ℕ :=
  if buyingCoin = "" then
    let product := raw * getDESOToDAOCoinBaseUnitsScalingFactor
    if uint256Bound ≤ product then .error .overflowError
    else .ok product
  else if sellingCoin = "" then
    let quotient := raw / getDESOToDAOCoinBaseUnitsScalingFactor
    if quotient = 0 then .error .rangeError
    else .ok quotient
  else .ok raw

/-- Source `CalculateScaledExchangeRate`: format the float price, parse
it against `RATE_SCALE` (propagating errors, as the source's early `return`),
reject an exact-zero raw rate, then apply the $DESO correction. -/
def CalculateScaledExchangeRate (buyingCoin sellingCoin : String)
    (exchangeRateCoinsToSellPerCoinToBuy : ℚ) : Except ConvError ℕ :=
  (CalculateScaledExchangeRateFromString
      (formatFloatAsString exchangeRateCoinsToSellPerCoinToBuy)).bind
    fun rawScaledExchangeRate =>
      if rawScaledExchangeRate = 0 then .error .rangeError
      else applyDESOScalingCorrection buyingCoin sellingCoin rawScaledExchangeRate

/-- The decimal string built by the source's canonical-to-float converters:
`"{whole}.{leading zeros}{decimal}"` with `whole = v / S`, `decimal = v % S`,
and `getNumDigits S - getNumDigits decimal - 1` leading zeros. -/
def renderScaledDecimalString (v S : ℕ) : String :=
  String.mk ((natToString (v / S)).data ++
    '.' :: (List.replicate (getNumDigitsNat S - getNumDigitsNat (v % S) - 1) '0'
      ++ (natToString (v % S)).data))

/-- Source `CalculateExchangeRateAsFloat`: undo the $DESO correction
(divide by `K` when buying $DESO, multiply when selling $DESO), then render
`value / 10^38` as a decimal string and parse it with `strconv.ParseFloat`
(whose error branch is unreachable on these self-built strings). -/
def CalculateExchangeRateAsFloat (buyingCoin sellingCoin : String)
    (scaledValue : ℕ) : Except ConvError ℚ :=
  let adjusted :=
    if buyingCoin = "" then scaledValue / getDESOToDAOCoinBaseUnitsScalingFactor
    else if sellingCoin = "" then scaledValue * getDESOToDAOCoinBaseUnitsScalingFactor
    else scaledValue
  .ok (float64Round (decimalStrVal (renderScaledDecimalString adjusted OneE38)))

/-- The BID/ASK operation-type strings of the API layer. -/
def DAOCoinLimitOrderOperationTypeStringASK : String := "ASK"

def DAOCoinLimitOrderOperationTypeStringBID : String := "BID"

/-- Source `isCoinToFillDESO`: the quantity field refers to $DESO
exactly when buying $DESO with a BID or selling $DESO with an ASK. -/
def isCoinToFillDESO (buyingCoin sellingCoin : String) (operationType : String) : Bool :=
  (buyingCoin == "" && operationType == DAOCoinLimitOrderOperationTypeStringBID) ||
    (sellingCoin == "" && operationType == DAOCoinLimitOrderOperationTypeStringASK)

/-- Source `calculateQuantityToFillAsFloatWithScalingFactor`:
`quantity / scalingFactor` rendered in decimal and parsed back as a float. -/
def calculateQuantityToFillAsFloatWithScalingFactor
    (quantityAsScaledValue scalingFactor : ℕ) : Except ConvError ℚ :=
  .ok (float64Round (decimalStrVal (renderScaledDecimalString quantityAsScaledValue scalingFactor)))

/-- Source `calculateQuantityToFillFromDAOCoinBaseUnitsToFloat`: divide by `10^18`. -/
def calculateQuantityToFillFromDAOCoinBaseUnitsToFloat (q : ℕ) : Except ConvError ℚ :=
  calculateQuantityToFillAsFloatWithScalingFactor q BaseUnitsPerCoin

/-- Source `calculateQuantityToFillFromDESONanosToFloat`: divide by `10^9`. -/
def calculateQuantityToFillFromDESONanosToFloat (q : ℕ) : Except ConvError ℚ :=
  calculateQuantityToFillAsFloatWithScalingFactor q NanosPerUnit

/-- Source `CalculateQuantityToFillAsFloat`. -/
def CalculateQuantityToFillAsFloat (buyingCoin sellingCoin operationType : String)
    (quantityToFillInBaseUnits : ℕ) : Except ConvError ℚ :=
  if isCoinToFillDESO buyingCoin sellingCoin operationType then
    calculateQuantityToFillFromDESONanosToFloat quantityToFillInBaseUnits
  else
    calculateQuantityToFillFromDAOCoinBaseUnitsToFloat quantityToFillInBaseUnits

/-- Source `calculateQuantityToFillToBaseUnitsWithScalingFactor`:
format the float and scale the decimal string by `scalingFactor`
(`lib.ScaleFloatFormatStringToUint256`, modelled by `ParseDecimalToScaled`). -/
def calculateQuantityToFillToBaseUnitsWithScalingFactor
    (quantityToFill : ℚ) (scalingFactor : ℕ) : Except ConvError ℕ :=
  ParseDecimalToScaled (formatFloatAsString quantityToFill) scalingFactor

/-- Source `calculateQuantityToFillAsDAOCoinBaseUnits`: scale by `10^18`. -/
def calculateQuantityToFillAsDAOCoinBaseUnits (quantityToFill : ℚ) : Except ConvError ℕ :=
  calculateQuantityToFillToBaseUnitsWithScalingFactor quantityToFill BaseUnitsPerCoin

/-- Source `calculateQuantityToFillAsDESONanos`: scale by `10^9`. -/
def calculateQuantityToFillAsDESONanos (quantityToFill : ℚ) : Except ConvError ℕ :=
  calculateQuantityToFillToBaseUnitsWithScalingFactor quantityToFill NanosPerUnit

/-- Source `CalculateQuantityToFillAsBaseUnits`. -/
def CalculateQuantityToFillAsBaseUnits (buyingCoin sellingCoin operationType : String)
    (quantityToFill : ℚ) : Except ConvError ℕ :=
  if isCoinToFillDESO buyingCoin sellingCoin operationType then
    calculateQuantityToFillAsDESONanos quantityToFill
  else
    calculateQuantityToFillAsDAOCoinBaseUnits quantityToFill

/-- Modelled from the spec: `CalculateScaledExchangeRateFromPriceString`,
whose body is not under `src/` (only its test
`src/routes/dao_coin_exchange_test.go` is).  Parses the decimal price string
against `RATE_SCALE`; for an ASK the order book stores the inverse price, and
the inversion `RATE_SCALE^2 / raw` rounds with a ceiling ("ceiling-style
rounding derived from integer division order", spec section 9), while the
forward (BID) parse floors.  The $DESO correction then applies as in
`CalculateScaledExchangeRate`. -/
def CalculateScaledExchangeRateFromPriceString (buyingCoin sellingCoin : String)
    (price : String) (operationType : String) : Except ConvError ℕ :=
  (ParseDecimalToScaled price OneE38).bind fun raw =>
    let scaled :=
      if operationType = DAOCoinLimitOrderOperationTypeStringASK then
        (OneE38 * OneE38 + raw - 1) / raw
      else raw
    if scaled = 0 then .error .rangeError
    else applyDESOScalingCorrection buyingCoin sellingCoin scaled


/-- The source's `getNumDigits` loop on a `big.Int`, fuel-indexed: repeatedly
divide by 10 (Go `big.Int.Div` is Euclidean division) and count, until the
quotient is zero; `none` when the fuel runs out before that. -/
def getNumDigitsLoop : ℕ → ℤ → ℕ → Option ℕ
  | 0, q, acc => if q = 0 then some acc else none
  | fuel + 1, q, acc => if q = 0 then some acc else getNumDigitsLoop fuel (Int.ediv q 10) (acc + 1)


namespace EngineLemmas

theorem charDigit_digitChar {d : ℕ} (hd : d < 10) : charDigit (digitChar d) = d := by
  interval_cases d <;> rfl

theorem isDigitChar_digitChar {d : ℕ} (hd : d < 10) : isDigitChar (digitChar d) = true := by
  interval_cases d <;> rfl

theorem digitChar_ne_dot {d : ℕ} (hd : d < 10) : digitChar d ≠ '.' := by
  interval_cases d <;> decide

theorem isDigitChar_ne_dot {c : Char} (hc : isDigitChar c = true) : c ≠ '.' := by
  intro h; subst h; simp [isDigitChar] at hc

theorem natDigitsRev_eq_digits : ∀ (fuel n : ℕ), n < 10 ^ fuel →
    natDigitsRev fuel n = Nat.digits 10 n := by
  intro fuel
  induction fuel with
  | zero =>
    intro n hn
    have : n = 0 := by simpa using Nat.lt_one_iff.mp (by simpa using hn)
    simp [this, natDigitsRev]
  | succ fuel ih =>
    intro n hn
    by_cases h0 : n = 0
    · simp [h0, natDigitsRev]
    · have hdiv : n / 10 < 10 ^ fuel := by
        rw [Nat.div_lt_iff_lt_mul (by norm_num)]
        calc n < 10 ^ (fuel + 1) := hn
        _ = 10 ^ fuel * 10 := by ring
      rw [natDigitsRev, if_neg h0, ih _ hdiv,
        Nat.digits_def' (by norm_num : 1 < 10) (Nat.pos_of_ne_zero h0)]

theorem natDigitsRev_length_le : ∀ (fuel n N : ℕ), n < 10 ^ N →
    (natDigitsRev fuel n).length ≤ N := by
  intro fuel
  induction fuel with
  | zero => intro n N _; simp [natDigitsRev]
  | succ fuel ih =>
    intro n N hn
    by_cases h0 : n = 0
    · simp [h0, natDigitsRev]
    · have hN : N ≠ 0 := by
        rintro rfl
        exact h0 (by simpa using Nat.lt_one_iff.mp (by simpa using hn))
      obtain ⟨N, rfl⟩ := Nat.exists_eq_succ_of_ne_zero hN
      have hdiv : n / 10 < 10 ^ N := by
        rw [Nat.div_lt_iff_lt_mul (by norm_num)]
        calc n < 10 ^ (N + 1) := hn
        _ = 10 ^ N * 10 := by ring
      rw [natDigitsRev, if_neg h0]
      simpa using ih (n / 10) N hdiv

theorem lt_pow_natDigitsRev_length : ∀ (fuel n : ℕ), n < 10 ^ fuel →
    n < 10 ^ (natDigitsRev fuel n).length := by
  intro fuel
  induction fuel with
  | zero =>
    intro n hn
    simpa [natDigitsRev] using hn
  | succ fuel ih =>
    intro n hn
    by_cases h0 : n = 0
    · simp [h0, natDigitsRev]
    · have hdiv : n / 10 < 10 ^ fuel := by
        rw [Nat.div_lt_iff_lt_mul (by norm_num)]
        calc n < 10 ^ (fuel + 1) := hn
        _ = 10 ^ fuel * 10 := by ring
      have hrec := ih (n / 10) hdiv
      rw [natDigitsRev, if_neg h0]
      simp only [List.length_cons]
      have hmod : n % 10 < 10 := Nat.mod_lt _ (by norm_num)
      calc n = 10 * (n / 10) + n % 10 := (Nat.div_add_mod n 10).symm ▸ by ring
      _ < 10 * (n / 10) + 10 := by omega
      _ = 10 * (n / 10 + 1) := by ring
      _ ≤ 10 * 10 ^ (natDigitsRev fuel (n / 10)).length := by
            have : n / 10 + 1 ≤ 10 ^ (natDigitsRev fuel (n / 10)).length := hrec
            exact Nat.mul_le_mul_left _ this
      _ = 10 ^ ((natDigitsRev fuel (n / 10)).length + 1) := by ring

theorem getNumDigitsNat_eq_digits_length {n : ℕ} (hn : n < 10 ^ digitFuel) :
    getNumDigitsNat n = (Nat.digits 10 n).length := by
  rw [getNumDigitsNat, natDigitsRev_eq_digits _ _ hn]

theorem getNumDigitsNat_le {n N : ℕ} (hn : n < 10 ^ N) : getNumDigitsNat n ≤ N :=
  natDigitsRev_length_le _ _ _ hn

theorem lt_pow_getNumDigitsNat {n : ℕ} (hn : n < 10 ^ digitFuel) :
    n < 10 ^ getNumDigitsNat n := lt_pow_natDigitsRev_length _ _ hn

theorem getNumDigitsNat_zero : getNumDigitsNat 0 = 0 := by decide

theorem getNumDigitsNat_pow10 {k : ℕ} (hk : k + 1 ≤ digitFuel) :
    getNumDigitsNat (10 ^ k) = k + 1 := by
  have h1 : getNumDigitsNat (10 ^ k) ≤ k + 1 :=
    getNumDigitsNat_le (Nat.pow_lt_pow_right (by norm_num) (Nat.lt_succ_self k))
  have h2 : 10 ^ k < 10 ^ getNumDigitsNat (10 ^ k) := by
    refine lt_pow_getNumDigitsNat ?_
    exact Nat.pow_lt_pow_right (by norm_num) (by omega)
  have := (Nat.pow_lt_pow_iff_right (a := 10) (by norm_num)).mp h2
  omega

theorem natDigitsRev_lt_ten : ∀ (fuel n : ℕ), ∀ d ∈ natDigitsRev fuel n, d < 10 := by
  intro fuel
  induction fuel with
  | zero => intro n d hd; simp [natDigitsRev] at hd
  | succ fuel ih =>
    intro n d hd
    by_cases h0 : n = 0
    · simp [h0, natDigitsRev] at hd
    · rw [natDigitsRev, if_neg h0] at hd
      rcases List.mem_cons.mp hd with h | h
      · subst h; exact Nat.mod_lt _ (by norm_num)
      · exact ih (n / 10) d h

theorem digitsVal_natToString {n : ℕ} (hn : n < 10 ^ digitFuel) :
    digitsVal (natToString n).data = n := by
  by_cases h0 : n = 0
  · subst h0; decide
  · rw [natToString, digitsVal]
    simp only [if_neg h0]
    change Nat.ofDigits 10
      ((((natDigitsRev digitFuel n).map digitChar).reverse.map charDigit).reverse) = n
    rw [List.map_reverse, List.reverse_reverse, List.map_map]
    have hmap : (natDigitsRev digitFuel n).map (charDigit ∘ digitChar)
        = (natDigitsRev digitFuel n).map id :=
      List.map_congr_left fun d hd =>
        charDigit_digitChar (natDigitsRev_lt_ten _ _ d hd)
    rw [hmap, List.map_id, natDigitsRev_eq_digits _ _ hn, Nat.ofDigits_digits]

theorem natToString_all_digits (n : ℕ) :
    ∀ c ∈ (natToString n).data, isDigitChar c = true := by
  intro c hc
  rw [natToString] at hc
  by_cases h0 : n = 0
  · simp only [if_pos h0] at hc
    change c ∈ ['0'] at hc
    rw [List.mem_singleton] at hc
    subst hc; decide
  · simp only [if_neg h0] at hc
    change c ∈ ((natDigitsRev digitFuel n).map digitChar).reverse at hc
    rw [List.mem_reverse, List.mem_map] at hc
    obtain ⟨d, hd, rfl⟩ := hc
    exact isDigitChar_digitChar (natDigitsRev_lt_ten _ _ d hd)

theorem natToString_ne_nil (n : ℕ) : (natToString n).data ≠ [] := by
  rw [natToString]
  by_cases h0 : n = 0
  · simp [h0]
  · simp only [if_neg h0]
    change ((natDigitsRev digitFuel n).map digitChar).reverse ≠ []
    simp only [ne_eq, List.reverse_eq_nil_iff, List.map_eq_nil_iff]
    cases hf : digitFuel with
    | zero => simp [digitFuel] at hf
    | succ fuel => simp [natDigitsRev, h0]

theorem natToString_length {n : ℕ} (h0 : n ≠ 0) :
    (natToString n).data.length = getNumDigitsNat n := by
  rw [natToString, getNumDigitsNat]
  simp only [if_neg h0]
  change ((natDigitsRev digitFuel n).map digitChar).reverse.length = _
  simp

theorem natToString_length_le {n N : ℕ} (hn : n < 10 ^ N) (hN : 1 ≤ N) :
    (natToString n).data.length ≤ N := by
  by_cases h0 : n = 0
  · subst h0
    simpa [natToString] using hN
  · rw [natToString_length h0]
    exact getNumDigitsNat_le hn

theorem splitOnDot_of_not_mem {cs : List Char} (h : '.' ∉ cs) :
    splitOnDot cs = some (cs, []) := by
  induction cs with
  | nil => rfl
  | cons c cs ih =>
    have hc : c ≠ '.' := fun hc => h (hc ▸ List.mem_cons_self c cs)
    have hcs : '.' ∉ cs := fun hcs => h (List.mem_cons_of_mem c hcs)
    rw [splitOnDot, if_neg hc, ih hcs]

theorem splitOnDot_append {a b : List Char} (ha : '.' ∉ a) (hb : '.' ∉ b) :
    splitOnDot (a ++ '.' :: b) = some (a, b) := by
  induction a with
  | nil => simp [splitOnDot, hb]
  | cons c a ih =>
    have hc : c ≠ '.' := fun hc => ha (hc ▸ List.mem_cons_self c a)
    have ha' : '.' ∉ a := fun h => ha (List.mem_cons_of_mem c h)
    rw [List.cons_append, splitOnDot, if_neg hc, ih ha']

theorem ofDigits_replicate_zero (z : ℕ) : Nat.ofDigits 10 (List.replicate z 0) = 0 := by
  induction z with
  | zero => rfl
  | succ z ih => rw [List.replicate_succ, Nat.ofDigits_cons, ih]

theorem digitsVal_replicate_zero_append (z : ℕ) (cs : List Char) :
    digitsVal (List.replicate z '0' ++ cs) = digitsVal cs := by
  rw [digitsVal, digitsVal, List.map_append, List.reverse_append, Nat.ofDigits_append]
  have hz : (List.replicate z '0').map charDigit = List.replicate z 0 := by
    rw [List.map_replicate]; rfl
  rw [hz, List.reverse_replicate, ofDigits_replicate_zero]
  simp

theorem digitsVal_padLeftZeros (cs : List Char) (w : ℕ) :
    digitsVal (padLeftZeros cs w) = digitsVal cs :=
  digitsVal_replicate_zero_append _ _

theorem padLeftZeros_length {cs : List Char} {w : ℕ} (h : cs.length ≤ w) :
    (padLeftZeros cs w).length = w := by
  rw [padLeftZeros, List.length_append, List.length_replicate]
  omega

theorem not_dot_of_all_digits {cs : List Char} (h : ∀ c ∈ cs, isDigitChar c = true) :
    '.' ∉ cs := fun hmem => isDigitChar_ne_dot (h _ hmem) rfl

end EngineLemmas

namespace EngineLemmas

theorem roundHalfEvenInt_intCast (k : ℤ) : roundHalfEvenInt (k : ℚ) = k := by
  rw [roundHalfEvenInt]
  simp

theorem roundHalfEvenInt_natCast (n : ℕ) : roundHalfEvenInt (n : ℚ) = n := by
  rw [show ((n : ℚ)) = ((n : ℤ) : ℚ) by push_cast; ring, roundHalfEvenInt_intCast]

theorem roundHalfEvenInt_eq_of_near {q : ℚ} {k : ℤ}
    (h1 : (k : ℚ) - 1 / 2 < q) (h2 : q < (k : ℚ) + 1 / 2) : roundHalfEvenInt q = k := by
  rw [roundHalfEvenInt]
  rcases le_or_lt (k : ℚ) q with hk | hk
  · have hfl : ⌊q⌋ = k := by
      rw [Int.floor_eq_iff]
      constructor
      · exact_mod_cast hk
      · linarith
    simp only [hfl]
    rw [if_pos (by linarith)]
  · have hfl : ⌊q⌋ = k - 1 := by
      rw [Int.floor_eq_iff]
      constructor
      · push_cast
        linarith
      · push_cast
        linarith
    simp only [hfl]
    rw [if_neg (by push_cast; linarith), if_pos (by push_cast; linarith)]
    omega

theorem qExp2_spec {q : ℚ} (hq : 0 < q) :
    (2 : ℚ) ^ qExp2 q ≤ q ∧ q < (2 : ℚ) ^ (qExp2 q + 1) := by
  have h2ne : (2 : ℚ) ≠ 0 := by norm_num
  have hnum : 0 < q.num := Rat.num_pos.mpr hq
  set a : ℕ := q.num.natAbs with ha
  set b : ℕ := q.den with hb
  have ha0 : a ≠ 0 := (Int.natAbs_pos.mpr hnum.ne').ne'
  have hb0 : b ≠ 0 := q.den_nz
  have hqval : q = (a : ℚ) / (b : ℚ) := by
    have hnum' : ((a : ℕ) : ℤ) = q.num := by rw [ha]; exact Int.natAbs_of_nonneg hnum.le
    have hnum'' : ((a : ℕ) : ℚ) = (q.num : ℚ) := by exact_mod_cast hnum'
    rw [hnum'', hb, Rat.num_div_den]
  have hbpos : (0 : ℚ) < (b : ℚ) := by
    have : 0 < b := Nat.pos_of_ne_zero hb0
    exact_mod_cast this
  set la : ℤ := (Nat.log2 a : ℤ) with hla_def
  set lb : ℤ := (Nat.log2 b : ℤ) with hlb_def
  have hla : (2 : ℚ) ^ la ≤ (a : ℚ) := by
    rw [hla_def, zpow_natCast]
    exact_mod_cast Nat.log2_self_le ha0
  have hla2 : (a : ℚ) < (2 : ℚ) ^ (la + 1) := by
    rw [show la + 1 = ((Nat.log2 a + 1 : ℕ) : ℤ) by rw [hla_def]; push_cast; ring,
      zpow_natCast]
    exact_mod_cast Nat.lt_log2_self (n := a)
  have hlb : (2 : ℚ) ^ lb ≤ (b : ℚ) := by
    rw [hlb_def, zpow_natCast]
    exact_mod_cast Nat.log2_self_le hb0
  have hlb2 : (b : ℚ) < (2 : ℚ) ^ (lb + 1) := by
    rw [show lb + 1 = ((Nat.log2 b + 1 : ℕ) : ℤ) by rw [hlb_def]; push_cast; ring,
      zpow_natCast]
    exact_mod_cast Nat.lt_log2_self (n := b)
  -- upper bound: q < 2 ^ (la - lb + 1)
  have hupper : q < (2 : ℚ) ^ (la - lb + 1) := by
    rw [hqval, div_lt_iff₀ hbpos]
    calc (a : ℚ) < (2 : ℚ) ^ (la + 1) := hla2
    _ = (2 : ℚ) ^ (la - lb + 1) * (2 : ℚ) ^ lb := by
          rw [← zpow_add₀ h2ne]; congr 1; ring
    _ ≤ (2 : ℚ) ^ (la - lb + 1) * (b : ℚ) :=
          mul_le_mul_of_nonneg_left hlb (zpow_nonneg (by norm_num) _)
  -- lower bound: 2 ^ (la - lb - 1) < q
  have hlower : (2 : ℚ) ^ (la - lb - 1) < q := by
    rw [hqval, lt_div_iff₀ hbpos]
    calc (2 : ℚ) ^ (la - lb - 1) * (b : ℚ)
        < (2 : ℚ) ^ (la - lb - 1) * (2 : ℚ) ^ (lb + 1) :=
          mul_lt_mul_of_pos_left hlb2 (zpow_pos (by norm_num) _)
    _ = (2 : ℚ) ^ la := by rw [← zpow_add₀ h2ne]; congr 1; ring
    _ ≤ (a : ℚ) := hla
  rw [qExp2]
  by_cases hcase : (2 : ℚ) ^ ((la - lb : ℤ)) ≤ q
  · rw [if_pos hcase]
    exact ⟨hcase, hupper⟩
  · rw [if_neg hcase]
    push_neg at hcase
    refine ⟨hlower.le, ?_⟩
    rw [show la - lb - 1 + 1 = la - lb by ring]
    exact hcase

theorem qExp2_eq_of {q : ℚ} {e : ℤ} (h1 : (2 : ℚ) ^ e ≤ q) (h2 : q < (2 : ℚ) ^ (e + 1)) :
    qExp2 q = e := by
  have hq : 0 < q := lt_of_lt_of_le (zpow_pos (by norm_num) e) h1
  obtain ⟨hs1, hs2⟩ := qExp2_spec hq
  have h12 : (1 : ℚ) < 2 := by norm_num
  by_contra hne
  rcases lt_or_gt_of_ne hne with hlt | hgt
  · have : qExp2 q + 1 ≤ e := by omega
    have : (2 : ℚ) ^ (qExp2 q + 1) ≤ (2 : ℚ) ^ e :=
      zpow_le_zpow_right₀ (by norm_num) this
    linarith
  · have : e + 1 ≤ qExp2 q := by omega
    have : (2 : ℚ) ^ (e + 1) ≤ (2 : ℚ) ^ qExp2 q :=
      zpow_le_zpow_right₀ (by norm_num) this
    linarith

theorem float64Round_eval {q : ℚ} {e k : ℤ}
    (h1 : (2 : ℚ) ^ e ≤ q) (h2 : q < (2 : ℚ) ^ (e + 1))
    (hk : roundHalfEvenInt (q / 2 ^ (e - 52)) = k) :
    float64Round q = (k : ℚ) * 2 ^ (e - 52) := by
  rw [float64Round, qExp2_eq_of h1 h2, hk]

theorem float64Round_one : float64Round (1 : ℚ) = 1 := by
  have hk : roundHalfEvenInt ((1 : ℚ) / 2 ^ ((0 : ℤ) - 52)) = 2 ^ 52 := by
    have h : ((1 : ℚ) / 2 ^ ((0 : ℤ) - 52)) = ((2 ^ 52 : ℤ) : ℚ) := by norm_num
    rw [h, roundHalfEvenInt_intCast]
  have h := float64Round_eval (q := 1) (e := 0) (by norm_num) (by norm_num) hk
  rw [h]
  norm_num

theorem ratTrunc_eq_floor {q : ℚ} (hq : 0 ≤ q) : ratTrunc q = ⌊q⌋ := by
  rw [ratTrunc, Int.tdiv_eq_ediv (Rat.num_nonneg.mpr hq) (by positivity), Rat.floor_def]

theorem ratTrunc_natCast (n : ℕ) : ratTrunc (n : ℚ) = n := by
  rw [ratTrunc_eq_floor (by positivity), Int.floor_natCast]

theorem ratTrunc_nat_div_pow {n k : ℕ} :
    ratTrunc ((n : ℚ) / 10 ^ k) = (n / 10 ^ k : ℕ) := by
  rw [ratTrunc_eq_floor (by positivity)]
  rw [show ((10 : ℚ) ^ k) = ((10 ^ k : ℕ) : ℚ) by push_cast; ring]
  exact_mod_cast Rat.floor_natCast_div_natCast n (10 ^ k)

end EngineLemmas

namespace EngineLemmas

theorem checkScaled_ok {r v : ℕ} (h : checkScaled r = .ok v) :
    v = r ∧ 0 < r ∧ r < uint256Bound := by
  rw [checkScaled] at h
  by_cases h0 : r = 0
  · simp [h0] at h
  · rw [if_neg h0] at h
    by_cases h1 : uint256Bound ≤ r
    · simp [h1] at h
    · rw [if_neg h1] at h
      exact ⟨(Except.ok.injEq _ _).mp h |>.symm, Nat.pos_of_ne_zero h0, by omega⟩

theorem ParseDecimalToScaled_ok {s : String} {F r : ℕ}
    (h : ParseDecimalToScaled s F = .ok r) : 0 < r ∧ r < uint256Bound := by
  rw [ParseDecimalToScaled] at h
  rcases hsp : splitOnDot s.data with _ | ⟨ip, fp⟩
  · rw [hsp, parseDecimalParts] at h; exact absurd h (by simp)
  · rw [hsp, parseDecimalParts] at h
    by_cases h1 : ip.isEmpty && fp.isEmpty
    · rw [if_pos h1] at h; exact absurd h (by simp)
    · rw [if_neg h1] at h
      by_cases h2 : ip.all isDigitChar && fp.all isDigitChar
      · rw [if_pos h2] at h
        obtain ⟨hv, hpos, hlt⟩ := checkScaled_ok h
        subst hv
        exact ⟨hpos, hlt⟩
      · rw [if_neg h2] at h; exact absurd h (by simp)

theorem ParseDecimalToScaled_mk_append {ip fp : List Char} (F : ℕ)
    (hne : ip ≠ [] ∨ fp ≠ [])
    (hip : ∀ c ∈ ip, isDigitChar c = true) (hfp : ∀ c ∈ fp, isDigitChar c = true) :
    ParseDecimalToScaled (String.mk (ip ++ '.' :: fp)) F =
      checkScaled (digitsVal ip * F + digitsVal fp * F / 10 ^ fp.length) := by
  rw [ParseDecimalToScaled]
  have hsp : splitOnDot (String.mk (ip ++ '.' :: fp)).data = some (ip, fp) :=
    splitOnDot_append (not_dot_of_all_digits hip) (not_dot_of_all_digits hfp)
  rw [hsp, parseDecimalParts]
  have he : (ip.isEmpty && fp.isEmpty) = false := by
    rcases hne with h | h
    · rw [Bool.and_eq_false_iff]
      exact Or.inl (by simpa [List.isEmpty_iff] using h)
    · rw [Bool.and_eq_false_iff]
      exact Or.inr (by simpa [List.isEmpty_iff] using h)
  rw [he]
  simp only [Bool.false_eq_true, if_false]
  rw [if_pos]
  rw [Bool.and_eq_true, List.all_eq_true, List.all_eq_true]
  exact ⟨hip, hfp⟩

theorem ParseDecimalToScaled_mk_nodot {ds : List Char} (F : ℕ)
    (hne : ds ≠ []) (hds : ∀ c ∈ ds, isDigitChar c = true) :
    ParseDecimalToScaled (String.mk ds) F = checkScaled (digitsVal ds * F) := by
  rw [ParseDecimalToScaled]
  have hsp : splitOnDot (String.mk ds).data = some (ds, []) :=
    splitOnDot_of_not_mem (not_dot_of_all_digits hds)
  rw [hsp, parseDecimalParts]
  have he : (ds.isEmpty && List.isEmpty ([] : List Char)) = false := by
    rw [Bool.and_eq_false_iff]
    exact Or.inl (by simpa [List.isEmpty_iff] using hne)
  rw [he]
  simp only [Bool.false_eq_true, if_false]
  rw [if_pos, show digitsVal [] = 0 from rfl]
  · norm_num
  · rw [Bool.and_eq_true, List.all_eq_true, List.all_eq_true]
    exact ⟨hds, by simp⟩

end EngineLemmas

namespace EngineLemmas

theorem sprintfFixed_of_mul_natCast {f : ℚ} {N a : ℕ} (h : f * 10 ^ N = (a : ℚ)) :
    sprintfFixed f N = sprintfFixedNat a N := by
  rw [sprintfFixed, h, roundHalfEvenInt_natCast, Int.toNat_natCast]

theorem formatFloatAsString_natCast (n : ℕ) :
    formatFloatAsString (n : ℚ) =
      if getNumDigitsNat n ≤ 15 then
        sprintfFixedNat (n * 10 ^ (15 - getNumDigitsNat n)) (15 - getNumDigitsNat n)
      else
        String.mk ((natToString (n / 10 ^ (getNumDigitsNat n - 15)
          * 10 ^ (getNumDigitsNat n - 15))).data ++ ['.', '0']) := by
  rw [formatFloatAsString]
  simp only [ratTrunc_natCast, Int.toNat_natCast]
  by_cases hd : getNumDigitsNat n ≤ 15
  · rw [if_pos hd, if_pos hd]
    exact sprintfFixed_of_mul_natCast (by push_cast; ring)
  · rw [if_neg hd, if_neg hd]

theorem ParseDecimalToScaled_sprintfFixedNat {a N F : ℕ} (ha : a < 10 ^ digitFuel) :
    ParseDecimalToScaled (sprintfFixedNat a N) F =
      checkScaled ((a / 10 ^ N) * F + (a % 10 ^ N) * F / 10 ^ N) := by
  by_cases hN : N = 0
  · subst hN
    rw [sprintfFixedNat, if_pos rfl,
      ParseDecimalToScaled_mk_nodot F (natToString_ne_nil a) (natToString_all_digits a),
      digitsVal_natToString ha]
    simp [Nat.mod_one, Nat.div_one]
  · have hN1 : 1 ≤ N := Nat.one_le_iff_ne_zero.mpr hN
    have hdivlt : a / 10 ^ N < 10 ^ digitFuel := lt_of_le_of_lt (Nat.div_le_self _ _) ha
    have hmodlt : a % 10 ^ N < 10 ^ N := Nat.mod_lt _ (by positivity)
    have hmodF : a % 10 ^ N < 10 ^ digitFuel := lt_of_le_of_lt (Nat.mod_le _ _) ha
    rw [sprintfFixedNat, if_neg hN]
    have hpadlen : (padLeftZeros (natToString (a % 10 ^ N)).data N).length = N :=
      padLeftZeros_length (natToString_length_le hmodlt hN1)
    have hpaddig : ∀ c ∈ padLeftZeros (natToString (a % 10 ^ N)).data N, isDigitChar c = true := by
      intro c hc
      rw [padLeftZeros, List.mem_append] at hc
      rcases hc with hc | hc
      · rw [List.mem_replicate] at hc
        rw [hc.2]; decide
      · exact natToString_all_digits _ c hc
    rw [ParseDecimalToScaled_mk_append F (Or.inl (natToString_ne_nil _))
      (natToString_all_digits _) hpaddig]
    rw [digitsVal_natToString hdivlt, digitsVal_padLeftZeros, digitsVal_natToString hmodF,
      hpadlen]

theorem scale_exact {a N k : ℕ} (h : N ≤ k) :
    (a / 10 ^ N) * 10 ^ k + (a % 10 ^ N) * 10 ^ k / 10 ^ N = a * 10 ^ (k - N) := by
  have hk : (10 : ℕ) ^ k = 10 ^ N * 10 ^ (k - N) := by
    rw [← pow_add]
    congr 1
    omega
  have hNpos : 0 < (10 : ℕ) ^ N := by positivity
  rw [hk]
  have h2 : a % 10 ^ N * (10 ^ N * 10 ^ (k - N)) / 10 ^ N
      = a % 10 ^ N * 10 ^ (k - N) := by
    rw [show a % 10 ^ N * (10 ^ N * 10 ^ (k - N))
        = a % 10 ^ N * 10 ^ (k - N) * 10 ^ N by ring]
    exact Nat.mul_div_cancel _ hNpos
  rw [h2]
  have h3 : a / 10 ^ N * 10 ^ N + a % 10 ^ N = a := by
    rw [Nat.mul_comm]
    exact Nat.div_add_mod a (10 ^ N)
  calc a / 10 ^ N * (10 ^ N * 10 ^ (k - N)) + a % 10 ^ N * 10 ^ (k - N)
      = (a / 10 ^ N * 10 ^ N + a % 10 ^ N) * 10 ^ (k - N) := by ring
  _ = a * 10 ^ (k - N) := by rw [h3]

theorem decimalStrVal_renderScaled {v k : ℕ} (hk : 1 ≤ k) (hkF : k + 1 ≤ digitFuel)
    (hv : v < 10 ^ digitFuel) :
    decimalStrVal (renderScaledDecimalString v (10 ^ k)) = (v : ℚ) / 10 ^ k := by
  have hdivlt : v / 10 ^ k < 10 ^ digitFuel := lt_of_le_of_lt (Nat.div_le_self _ _) hv
  have hmodlt : v % 10 ^ k < 10 ^ k := Nat.mod_lt _ (by positivity)
  have hmodF : v % 10 ^ k < 10 ^ digitFuel :=
    lt_of_lt_of_le hmodlt (Nat.pow_le_pow_right (by norm_num) (by omega))
  set dec := v % 10 ^ k with hdec
  set z := getNumDigitsNat (10 ^ k) - getNumDigitsNat dec - 1 with hz
  have hS : getNumDigitsNat (10 ^ k) = k + 1 := getNumDigitsNat_pow10 hkF
  have hfrac_digits : ∀ c ∈ List.replicate z '0' ++ (natToString dec).data,
      isDigitChar c = true := by
    intro c hc
    rw [List.mem_append] at hc
    rcases hc with hc | hc
    · rw [List.mem_replicate] at hc
      rw [hc.2]; decide
    · exact natToString_all_digits _ c hc
  have hsp : splitOnDot (renderScaledDecimalString v (10 ^ k)).data =
      some ((natToString (v / 10 ^ k)).data,
        List.replicate z '0' ++ (natToString dec).data) :=
    splitOnDot_append (not_dot_of_all_digits (natToString_all_digits _))
      (not_dot_of_all_digits hfrac_digits)
  rw [decimalStrVal, hsp, decimalParts]
  rw [digitsVal_natToString hdivlt, digitsVal_replicate_zero_append,
    digitsVal_natToString hmodF]
  have hlen : (List.replicate z '0' ++ (natToString dec).data).length
      = z + (natToString dec).data.length := by
    rw [List.length_append, List.length_replicate]
  rw [hlen]
  by_cases hdec0 : dec = 0
  · rw [hdec0]
    have hzk : z = k := by
      rw [hz, hdec0, hS, getNumDigitsNat_zero]
      omega
    rw [hzk]
    have hdvd : 10 ^ k ∣ v := Nat.dvd_of_mod_eq_zero (by rw [← hdec]; exact hdec0)
    have hvmul : v / 10 ^ k * 10 ^ k = v := Nat.div_mul_cancel hdvd
    have hvd : (v : ℚ) = ((v / 10 ^ k : ℕ) : ℚ) * 10 ^ k := by
      exact_mod_cast congrArg (fun m : ℕ => (m : ℚ)) hvmul.symm
    rw [hvd]
    field_simp
  · have hdlen : (natToString dec).data.length = getNumDigitsNat dec :=
      natToString_length hdec0
    have hdle : getNumDigitsNat dec ≤ k := getNumDigitsNat_le hmodlt
    have hdpos : 1 ≤ getNumDigitsNat dec := by
      by_contra hcon
      push_neg at hcon
      have : getNumDigitsNat dec = 0 := by omega
      have hlt := lt_pow_getNumDigitsNat hmodF
      rw [this] at hlt
      exact hdec0 (by omega)
    have hzk : z + (natToString dec).data.length = k := by
      rw [hdlen, hz, hS]
      omega
    rw [hzk]
    have hvd : (v : ℚ) = ((v / 10 ^ k : ℕ) : ℚ) * 10 ^ k + ((dec : ℕ) : ℚ) := by
      have h4 : v / 10 ^ k * 10 ^ k + dec = v := by
        rw [hdec, Nat.mul_comm]
        exact Nat.div_add_mod v (10 ^ k)
      exact_mod_cast congrArg (fun m : ℕ => (m : ℚ)) h4.symm
    rw [hvd]
    field_simp

end EngineLemmas

namespace EngineLemmas

theorem exceptBind_ok {ε α β : Type} (a : α) (f : α → Except ε β) :
    (Except.ok a : Except ε α).bind f = f a := rfl

theorem exceptBind_error {ε α β : Type} (e : ε) (f : α → Except ε β) :
    (Except.error e : Except ε α).bind f = .error e := rfl

theorem formatFloatAsString_div_pow38 {n : ℕ}
    (hd : getNumDigitsNat (n / 10 ^ 38) ≤ 15)
    (hdiv : 10 ^ (23 + getNumDigitsNat (n / 10 ^ 38)) ∣ n) :
    formatFloatAsString ((n : ℚ) / 10 ^ 38) =
      sprintfFixedNat (n / 10 ^ (23 + getNumDigitsNat (n / 10 ^ 38)))
        (15 - getNumDigitsNat (n / 10 ^ 38)) := by
  set d := getNumDigitsNat (n / 10 ^ 38) with hd_def
  rw [formatFloatAsString]
  simp only [ratTrunc_nat_div_pow, Int.toNat_natCast, ← hd_def]
  rw [if_pos hd]
  apply sprintfFixed_of_mul_natCast
  obtain ⟨c, hc⟩ := hdiv
  have hcdiv : n / 10 ^ (23 + d) = c := by
    rw [hc]
    exact Nat.mul_div_cancel_left c (by positivity)
  rw [hcdiv, hc]
  have hexp : (10 : ℚ) ^ 38 = 10 ^ (23 + d) * 10 ^ (15 - d) := by
    rw [← pow_add]
    congr 1
    omega
  push_cast
  rw [hexp]
  have h10 : ((10 : ℚ) ^ (23 + d)) ≠ 0 := by positivity
  have h10' : ((10 : ℚ) ^ (15 - d)) ≠ 0 := by positivity
  field_simp
  ring

theorem parse_formatFloat_div_pow38 {n : ℕ} (hn : 0 < n) (hnF : n < 10 ^ digitFuel)
    (hd : getNumDigitsNat (n / 10 ^ 38) ≤ 15)
    (hdiv : 10 ^ (23 + getNumDigitsNat (n / 10 ^ 38)) ∣ n) :
    ParseDecimalToScaled (formatFloatAsString ((n : ℚ) / 10 ^ 38)) OneE38 = .ok n := by
  set d := getNumDigitsNat (n / 10 ^ 38) with hd_def
  have hbound : n < 10 ^ (38 + d) := by
    have h1 : n / 10 ^ 38 < 10 ^ digitFuel := lt_of_le_of_lt (Nat.div_le_self _ _) hnF
    have h2 : n / 10 ^ 38 < 10 ^ d := hd_def ▸ lt_pow_getNumDigitsNat h1
    have := (Nat.div_lt_iff_lt_mul (show 0 < 10 ^ 38 by positivity)).mp h2
    calc n < 10 ^ d * 10 ^ 38 := this
    _ = 10 ^ (38 + d) := by rw [← pow_add]; congr 1; omega
  have hlt256 : n < uint256Bound := by
    rw [uint256Bound]
    calc n < 10 ^ (38 + d) := hbound
    _ ≤ 10 ^ 53 := Nat.pow_le_pow_right (by norm_num) (by omega)
    _ < 2 ^ 256 := by norm_num
  rw [formatFloatAsString_div_pow38 hd hdiv, ← hd_def]
  have halt : n / 10 ^ (23 + d) < 10 ^ digitFuel :=
    lt_of_le_of_lt (Nat.div_le_self _ _) hnF
  rw [OneE38, ParseDecimalToScaled_sprintfFixedNat halt]
  have h15 : 15 - d ≤ 38 := by omega
  rw [scale_exact h15]
  have hexp : 38 - (15 - d) = 23 + d := by omega
  rw [hexp, Nat.div_mul_cancel hdiv]
  rw [checkScaled, if_neg (by omega), if_neg (by omega)]

theorem decimalStrVal_renderScaled38 {v : ℕ} (hv : v < 10 ^ digitFuel) :
    decimalStrVal (renderScaledDecimalString v OneE38) = (v : ℚ) / 10 ^ 38 := by
  rw [OneE38]
  exact decimalStrVal_renderScaled (by norm_num) (by rw [digitFuel]; omega) hv

end EngineLemmas

namespace EngineLemmas

theorem K_eq : getDESOToDAOCoinBaseUnitsScalingFactor = 10 ^ 9 := by decide

theorem bound_of_digits {n : ℕ} (hnF : n < 10 ^ digitFuel)
    (hd : getNumDigitsNat (n / 10 ^ 38) ≤ 15) : n < 10 ^ 53 := by
  have h1 : n / 10 ^ 38 < 10 ^ digitFuel := lt_of_le_of_lt (Nat.div_le_self _ _) hnF
  have h2 : n / 10 ^ 38 < 10 ^ getNumDigitsNat (n / 10 ^ 38) := lt_pow_getNumDigitsNat h1
  have h3 : n / 10 ^ 38 < 10 ^ 15 :=
    lt_of_lt_of_le h2 (Nat.pow_le_pow_right (by norm_num) hd)
  have := (Nat.div_lt_iff_lt_mul (show 0 < 10 ^ 38 by positivity)).mp h3
  calc n < 10 ^ 15 * 10 ^ 38 := this
  _ = 10 ^ 53 := by norm_num

end EngineLemmas

open EngineLemmas in
/-- Claim C3 (spec sections 4.3 and 8, "Reference-side inversion symmetry"):
for every asset-pair configuration and every valid positive decimal price `p`
already normalized to the engine's resolution — `p = n / 10^38` with at most
15 significant digits laid out as the formatter prints them
(`10^(23+d) ∣ n` for `d` the integer-digit count), within float64 range and
exactly representable as a float64 (`float64Round p = p`) — converting to the
canonical scaled rate and back is the identity:
`CalculateExchangeRateAsFloat` applied to the result of
`CalculateScaledExchangeRate` for the same pair returns `p`. -/
theorem C3_rate_roundtrip (buyingCoin sellingCoin : String) (n : ℕ)
    (hn : 0 < n) (hnF : n < 10 ^ digitFuel)
    (hd : getNumDigitsNat (n / 10 ^ 38) ≤ 15)
    (hdiv : 10 ^ (23 + getNumDigitsNat (n / 10 ^ 38)) ∣ n)
    (hfloat : float64Round ((n : ℚ) / 10 ^ 38) = (n : ℚ) / 10 ^ 38) :
    (CalculateScaledExchangeRate buyingCoin sellingCoin ((n : ℚ) / 10 ^ 38)).bind
        (CalculateExchangeRateAsFloat buyingCoin sellingCoin) =
      Except.ok ((n : ℚ) / 10 ^ 38) := by
  have h53 : n < 10 ^ 53 := bound_of_digits hnF hd
  have hdvd9 : 10 ^ 9 ∣ n :=
    dvd_trans (pow_dvd_pow 10 (by omega)) hdiv
  rw [CalculateScaledExchangeRate, CalculateScaledExchangeRateFromString,
    parse_formatFloat_div_pow38 hn hnF hd hdiv, exceptBind_ok]
  rw [if_neg (by omega), applyDESOScalingCorrection, K_eq]
  by_cases hbuy : buyingCoin = ""
  · rw [if_pos hbuy]
    have hover : ¬ uint256Bound ≤ n * 10 ^ 9 := by
      rw [uint256Bound]
      have : n * 10 ^ 9 < 10 ^ 53 * 10 ^ 9 :=
        (Nat.mul_lt_mul_right (by positivity)).mpr h53
      have h62 : (10 : ℕ) ^ 53 * 10 ^ 9 = 10 ^ 62 := by norm_num
      push_neg
      calc n * 10 ^ 9 < 10 ^ 62 := by omega
      _ < 2 ^ 256 := by norm_num
    rw [if_neg hover, exceptBind_ok, CalculateExchangeRateAsFloat]
    simp only [if_pos hbuy]
    have hadj : n * 10 ^ 9 / getDESOToDAOCoinBaseUnitsScalingFactor = n := by
      rw [K_eq]
      exact Nat.mul_div_cancel n (by positivity)
    rw [hadj, decimalStrVal_renderScaled38 hnF, hfloat]
  · rw [if_neg hbuy]
    by_cases hsell : sellingCoin = ""
    · rw [if_pos hsell]
      have hq0 : ¬ n / 10 ^ 9 = 0 := by
        have : 10 ^ 9 ≤ n := Nat.le_of_dvd hn hdvd9
        have := Nat.div_pos this (show 0 < 10 ^ 9 by positivity)
        omega
      rw [if_neg hq0, exceptBind_ok, CalculateExchangeRateAsFloat]
      simp only [if_neg hbuy, if_pos hsell]
      have hadj : n / 10 ^ 9 * getDESOToDAOCoinBaseUnitsScalingFactor = n := by
        rw [K_eq]
        exact Nat.div_mul_cancel hdvd9
      rw [hadj, decimalStrVal_renderScaled38 hnF, hfloat]
    · rw [if_neg hsell, exceptBind_ok, CalculateExchangeRateAsFloat]
      simp only [if_neg hbuy, if_neg hsell]
      rw [decimalStrVal_renderScaled38 hnF, hfloat]

namespace EngineLemmas

theorem getNumDigitsLoop_neg : ∀ (fuel : ℕ) (q : ℤ) (acc : ℕ), q < 0 →
    getNumDigitsLoop fuel q acc = none := by
  intro fuel
  induction fuel with
  | zero =>
    intro q acc hq
    rw [getNumDigitsLoop, if_neg (by omega)]
  | succ fuel ih =>
    intro q acc hq
    rw [getNumDigitsLoop, if_neg (by omega)]
    exact ih _ _ (show Int.ediv q 10 < 0 from Int.ediv_neg' hq (by norm_num))

theorem getNumDigitsLoop_mono : ∀ (fuel fuel' : ℕ) (q : ℤ) (acc r : ℕ),
    fuel ≤ fuel' → getNumDigitsLoop fuel q acc = some r →
    getNumDigitsLoop fuel' q acc = some r := by
  intro fuel
  induction fuel with
  | zero =>
    intro fuel' q acc r _ h
    rw [getNumDigitsLoop] at h
    by_cases hq : q = 0
    · rw [if_pos hq] at h
      cases fuel' with
      | zero => rw [getNumDigitsLoop, if_pos hq]; exact h
      | succ fuel' => rw [getNumDigitsLoop, if_pos hq]; exact h
    · rw [if_neg hq] at h
      exact absurd h (by simp)
  | succ fuel ih =>
    intro fuel' q acc r hle h
    rw [getNumDigitsLoop] at h
    by_cases hq : q = 0
    · rw [if_pos hq] at h
      cases fuel' with
      | zero => rw [getNumDigitsLoop, if_pos hq]; exact h
      | succ fuel' => rw [getNumDigitsLoop, if_pos hq]; exact h
    · rw [if_neg hq] at h
      cases fuel' with
      | zero => omega
      | succ fuel' =>
        rw [getNumDigitsLoop, if_neg hq]
        exact ih fuel' _ _ _ (by omega) h

theorem getNumDigitsLoop_natCast : ∀ (m acc : ℕ),
    getNumDigitsLoop (m + 1) (m : ℤ) acc = some (acc + (Nat.digits 10 m).length) := by
  intro m
  induction m using Nat.strong_induction_on with
  | _ m ih =>
    intro acc
    by_cases h0 : m = 0
    · subst h0
      rw [getNumDigitsLoop, if_pos (by norm_num)]
      simp
    · rw [getNumDigitsLoop, if_neg (by exact_mod_cast h0)]
      have hdivlt : m / 10 < m := Nat.div_lt_self (Nat.pos_of_ne_zero h0) (by norm_num)
      have hstep : Int.ediv (m : ℤ) 10 = ((m / 10 : ℕ) : ℤ) := by
        rw [Int.natCast_div]
        rfl
      rw [hstep]
      have hrec := ih (m / 10) hdivlt (acc + 1)
      have := getNumDigitsLoop_mono (m / 10 + 1) m _ _ _ (by omega) hrec
      rw [this, Nat.digits_def' (by norm_num : 1 < 10) (Nat.pos_of_ne_zero h0)]
      simp only [List.length_cons]
      congr 1
      omega

end EngineLemmas

namespace EngineLemmas

theorem formatFloatAsString_zero : formatFloatAsString (0 : ℚ) = "0.000000000000000" := by
  rw [show (0 : ℚ) = ((0 : ℕ) : ℚ) by norm_num, formatFloatAsString_natCast]
  decide

theorem formatFloatAsString_one : formatFloatAsString (1 : ℚ) = "1.00000000000000" := by
  rw [show (1 : ℚ) = ((1 : ℕ) : ℚ) by norm_num, formatFloatAsString_natCast]
  decide

theorem parse_fifteen_zeros (F : ℕ) :
    ParseDecimalToScaled "0.000000000000000" F = .error .rangeError := by
  rw [show ("0.000000000000000" : String)
      = String.mk (['0'] ++ '.' :: List.replicate 15 '0') by decide]
  rw [ParseDecimalToScaled_mk_append F (Or.inl (by decide)) (by decide) (by decide)]
  rw [show digitsVal ['0'] = 0 by decide, show digitsVal (List.replicate 15 '0') = 0 by decide]
  simp [checkScaled]

theorem parse_zero_string (F : ℕ) : ParseDecimalToScaled "0" F = .error .rangeError := by
  rw [show ("0" : String) = String.mk ['0'] by decide]
  rw [ParseDecimalToScaled_mk_nodot F (by decide) (by decide)]
  rw [show digitsVal ['0'] = 0 by decide]
  simp [checkScaled]

theorem parse_zero_dot_zero_string (F : ℕ) :
    ParseDecimalToScaled "0.0" F = .error .rangeError := by
  rw [show ("0.0" : String) = String.mk (['0'] ++ '.' :: ['0']) by decide]
  rw [ParseDecimalToScaled_mk_append F (Or.inl (by decide)) (by decide) (by decide)]
  rw [show digitsVal ['0'] = 0 by decide]
  simp [checkScaled]

theorem parse_format_zero (F : ℕ) :
    ParseDecimalToScaled (formatFloatAsString (0 : ℚ)) F = .error .rangeError := by
  rw [formatFloatAsString_zero, parse_fifteen_zeros]

theorem float64Round_two_minus_eps :
    float64Round ((199999999999999995 : ℚ) / 10 ^ 17) = 2 := by
  have h1 : (2 : ℚ) ^ (0 : ℤ) ≤ (199999999999999995 : ℚ) / 10 ^ 17 := by norm_num
  have h2 : (199999999999999995 : ℚ) / 10 ^ 17 < 2 ^ ((0 : ℤ) + 1) := by norm_num
  have hk : roundHalfEvenInt (((199999999999999995 : ℚ) / 10 ^ 17) / 2 ^ ((0 : ℤ) - 52))
      = 2 ^ 53 := by
    apply roundHalfEvenInt_eq_of_near
    · push_cast
      norm_num [zpow_neg]
    · push_cast
      norm_num [zpow_neg]
  have h := float64Round_eval h1 h2 hk
  rw [h]
  push_cast
  norm_num [zpow_neg]

end EngineLemmas

open EngineLemmas in
/-- Claim C1 (spec sections 4.3 and 8): `CalculateScaledExchangeRate` first
obtains the raw scaled rate `R` (the price scaled by `RATE_SCALE = 10^38`),
then applies the Reference correction: buying $DESO returns `R * K` failing
with an overflow error when the 256-bit product overflows; selling $DESO
returns `R / K` (truncating) failing with a range error when the quotient is
zero; otherwise `R` unchanged — with `K = 10^9` the value of
`getDESOToDAOCoinBaseUnitsScalingFactor`.  In particular
`RateFromDecimal(Generic, Reference, 1.0) = RATE_SCALE / K` and
`RateFromDecimal(Reference, Generic, 1.0) = RATE_SCALE * K`. -/
theorem C1_reference_correction :
    (∀ (buyingCoin sellingCoin : String) (x : ℚ),
      CalculateScaledExchangeRate buyingCoin sellingCoin x =
        (ParseDecimalToScaled (formatFloatAsString x) OneE38).bind fun R =>
          if buyingCoin = "" then
            if uint256Bound ≤ R * 10 ^ 9 then .error .overflowError
            else .ok (R * 10 ^ 9)
          else if sellingCoin = "" then
            if R / 10 ^ 9 = 0 then .error .rangeError
            else .ok (R / 10 ^ 9)
          else .ok R) ∧
    getDESOToDAOCoinBaseUnitsScalingFactor = 10 ^ 9 ∧
    (∀ g : String, g ≠ "" →
      CalculateScaledExchangeRate g "" 1 = .ok (OneE38 / 10 ^ 9)) ∧
    (∀ g : String, g ≠ "" →
      CalculateScaledExchangeRate "" g 1 = .ok (OneE38 * 10 ^ 9)) := by
  have hfirst : ∀ (buyingCoin sellingCoin : String) (x : ℚ),
      CalculateScaledExchangeRate buyingCoin sellingCoin x =
        (ParseDecimalToScaled (formatFloatAsString x) OneE38).bind fun R =>
          if buyingCoin = "" then
            if uint256Bound ≤ R * 10 ^ 9 then .error .overflowError
            else .ok (R * 10 ^ 9)
          else if sellingCoin = "" then
            if R / 10 ^ 9 = 0 then .error .rangeError
            else .ok (R / 10 ^ 9)
          else .ok R := by
    intro buyingCoin sellingCoin x
    rw [CalculateScaledExchangeRate, CalculateScaledExchangeRateFromString]
    rcases hp : ParseDecimalToScaled (formatFloatAsString x) OneE38 with e | R
    · rw [exceptBind_error, exceptBind_error]
    · rw [exceptBind_ok, exceptBind_ok]
      have hR : 0 < R := (ParseDecimalToScaled_ok hp).1
      rw [if_neg (by omega), applyDESOScalingCorrection, K_eq]
  refine ⟨hfirst, K_eq, ?_, ?_⟩
  · intro g hg
    rw [hfirst, formatFloatAsString_one,
      show ParseDecimalToScaled "1.00000000000000" OneE38 = .ok (10 ^ 38) by decide,
      exceptBind_ok, if_neg hg, if_pos rfl, if_neg (by norm_num)]
    rw [show OneE38 = 10 ^ 38 from rfl]
  · intro g hg
    rw [hfirst, formatFloatAsString_one,
      show ParseDecimalToScaled "1.00000000000000" OneE38 = .ok (10 ^ 38) by decide,
      exceptBind_ok, if_pos rfl, if_neg (by rw [uint256Bound]; norm_num)]
    rw [show OneE38 = 10 ^ 38 from rfl]

open EngineLemmas in
/-- Witness for C1 at the concrete Generic identifier `"coinX"`. -/
theorem C1_reference_correction_witness :
    ("coinX" : String) ≠ "" ∧
    CalculateScaledExchangeRate "coinX" "" 1 = .ok (OneE38 / 10 ^ 9) ∧
    CalculateScaledExchangeRate "" "coinX" 1 = .ok (OneE38 * 10 ^ 9) :=
  ⟨by decide, C1_reference_correction.2.2.1 "coinX" (by decide),
    C1_reference_correction.2.2.2 "coinX" (by decide)⟩

open EngineLemmas in
/-- Claim C2 (spec sections 4.1 and 8, "Quantity side selection"): the quantity
field denominates the Reference asset ($DESO) exactly when (buying $DESO and
BID) or (selling $DESO and ASK); accordingly
`CalculateQuantityToFillAsBaseUnits` scales by `S_ref = 10^9` in exactly those
two cases and by `S_gen = 10^18` otherwise, and for a Generic/Generic pair the
quantity side is Generic regardless of the operation type. -/
theorem C2_quantity_side_selection :
    (∀ buyingCoin sellingCoin operationType : String,
      isCoinToFillDESO buyingCoin sellingCoin operationType = true ↔
        ((buyingCoin = "" ∧ operationType = "BID") ∨
          (sellingCoin = "" ∧ operationType = "ASK"))) ∧
    NanosPerUnit = 10 ^ 9 ∧ BaseUnitsPerCoin = 10 ^ 18 ∧
    (∀ (buyingCoin sellingCoin operationType : String) (q : ℚ),
      CalculateQuantityToFillAsBaseUnits buyingCoin sellingCoin operationType q =
        ParseDecimalToScaled (formatFloatAsString q)
          (if isCoinToFillDESO buyingCoin sellingCoin operationType then 10 ^ 9
           else 10 ^ 18)) ∧
    (∀ (buyingCoin sellingCoin operationType : String) (q : ℚ),
      buyingCoin ≠ "" → sellingCoin ≠ "" →
      CalculateQuantityToFillAsBaseUnits buyingCoin sellingCoin operationType q =
        ParseDecimalToScaled (formatFloatAsString q) (10 ^ 18)) := by
  have hiff : ∀ buyingCoin sellingCoin operationType : String,
      isCoinToFillDESO buyingCoin sellingCoin operationType = true ↔
        ((buyingCoin = "" ∧ operationType = "BID") ∨
          (sellingCoin = "" ∧ operationType = "ASK")) := by
    intro buyingCoin sellingCoin operationType
    rw [isCoinToFillDESO, DAOCoinLimitOrderOperationTypeStringBID,
      DAOCoinLimitOrderOperationTypeStringASK]
    simp [Bool.or_eq_true, Bool.and_eq_true, beq_iff_eq]
  have hscale : ∀ (buyingCoin sellingCoin operationType : String) (q : ℚ),
      CalculateQuantityToFillAsBaseUnits buyingCoin sellingCoin operationType q =
        ParseDecimalToScaled (formatFloatAsString q)
          (if isCoinToFillDESO buyingCoin sellingCoin operationType then 10 ^ 9
           else 10 ^ 18) := by
    intro buyingCoin sellingCoin operationType q
    rw [CalculateQuantityToFillAsBaseUnits]
    by_cases h : isCoinToFillDESO buyingCoin sellingCoin operationType
    · rw [if_pos h, if_pos h, calculateQuantityToFillAsDESONanos,
        calculateQuantityToFillToBaseUnitsWithScalingFactor, NanosPerUnit]
    · rw [if_neg h, if_neg h, calculateQuantityToFillAsDAOCoinBaseUnits,
        calculateQuantityToFillToBaseUnitsWithScalingFactor, BaseUnitsPerCoin]
  refine ⟨hiff, rfl, rfl, hscale, ?_⟩
  intro buyingCoin sellingCoin operationType q hbuy hsell
  rw [hscale]
  have : isCoinToFillDESO buyingCoin sellingCoin operationType = false := by
    rw [isCoinToFillDESO]
    simp [hbuy, hsell]
  rw [this]
  simp

open EngineLemmas in
/-- Witness for C2 at a concrete Generic/Generic pair. -/
theorem C2_quantity_side_selection_witness :
    ("coinA" : String) ≠ "" ∧ ("coinB" : String) ≠ "" ∧
    CalculateQuantityToFillAsBaseUnits "coinA" "coinB" "BID" 1 =
      ParseDecimalToScaled (formatFloatAsString 1) (10 ^ 18) :=
  ⟨by decide, by decide,
    C2_quantity_side_selection.2.2.2.2 "coinA" "coinB" "BID" 1 (by decide) (by decide)⟩

open EngineLemmas in
/-- Claim C4 (spec section 4.4, "Zero rejection"): for every asset pair and
operation type a zero fill quantity (the float `0.0`, and the decimal strings
`"0"` and `"0.0"` at the parser level) fails with a range error and is never
returned as a valid base-unit quantity. -/
theorem C4_zero_quantity_rejected :
    (∀ buyingCoin sellingCoin operationType : String,
      CalculateQuantityToFillAsBaseUnits buyingCoin sellingCoin operationType 0 =
        .error .rangeError) ∧
    (∀ F : ℕ, ParseDecimalToScaled "0" F = .error .rangeError ∧
      ParseDecimalToScaled "0.0" F = .error .rangeError) := by
  constructor
  · intro buyingCoin sellingCoin operationType
    rw [CalculateQuantityToFillAsBaseUnits]
    by_cases h : isCoinToFillDESO buyingCoin sellingCoin operationType
    · rw [if_pos h, calculateQuantityToFillAsDESONanos,
        calculateQuantityToFillToBaseUnitsWithScalingFactor, parse_format_zero]
    · rw [if_neg h, calculateQuantityToFillAsDAOCoinBaseUnits,
        calculateQuantityToFillToBaseUnitsWithScalingFactor, parse_format_zero]
  · intro F
    exact ⟨parse_zero_string F, parse_zero_dot_zero_string F⟩

open EngineLemmas in
/-- Claim C9 (implicit): the quantity converters never validate the operation
type: for every operation-type string other than exactly `"BID"` or `"ASK"`
(including the empty string), `isCoinToFillDESO` is false and the quantity is
silently scaled as a DAO-coin (`10^18`) quantity instead of erroring. -/
theorem C9_unknown_operation_type_defaults_to_dao_coin :
    ∀ (buyingCoin sellingCoin operationType : String) (q : ℚ) (v : ℕ),
      operationType ≠ "BID" → operationType ≠ "ASK" →
      isCoinToFillDESO buyingCoin sellingCoin operationType = false ∧
      CalculateQuantityToFillAsBaseUnits buyingCoin sellingCoin operationType q =
        calculateQuantityToFillToBaseUnitsWithScalingFactor q (10 ^ 18) ∧
      CalculateQuantityToFillAsFloat buyingCoin sellingCoin operationType v =
        calculateQuantityToFillAsFloatWithScalingFactor v (10 ^ 18) := by
  intro buyingCoin sellingCoin operationType q v hbid hask
  have hfill : isCoinToFillDESO buyingCoin sellingCoin operationType = false := by
    rw [isCoinToFillDESO, DAOCoinLimitOrderOperationTypeStringBID,
      DAOCoinLimitOrderOperationTypeStringASK]
    simp [hbid, hask]
  refine ⟨hfill, ?_, ?_⟩
  · rw [CalculateQuantityToFillAsBaseUnits, hfill]
    simp only [Bool.false_eq_true, if_false]
    rw [calculateQuantityToFillAsDAOCoinBaseUnits, BaseUnitsPerCoin]
  · rw [CalculateQuantityToFillAsFloat, hfill]
    simp only [Bool.false_eq_true, if_false]
    rw [calculateQuantityToFillFromDAOCoinBaseUnitsToFloat, BaseUnitsPerCoin]

open EngineLemmas in
/-- Witness for C9 at the empty operation-type string. -/
theorem C9_unknown_operation_type_defaults_to_dao_coin_witness :
    ("" : String) ≠ "BID" ∧ ("" : String) ≠ "ASK" ∧
    CalculateQuantityToFillAsBaseUnits "" "coinB" "" 1 =
      calculateQuantityToFillToBaseUnitsWithScalingFactor 1 (10 ^ 18) :=
  ⟨by decide, by decide,
    (C9_unknown_operation_type_defaults_to_dao_coin "" "coinB" "" 1 0
      (by decide) (by decide)).2.1⟩

open EngineLemmas in
/-- Claim C10 (implicit, termination): the source's `getNumDigits` loop
terminates on every non-negative big integer and returns its number of base-10
digits (with `0` for input `0`, since `Nat.digits 10 0 = []`); consequently
the formatters' digit counter agrees with the digit count on the whole range
they use.  Non-negativity is a genuine precondition: on every negative input
the loop never reaches zero (Go `big.Int.Div` is Euclidean, so the quotient
stabilizes at `-1`), i.e. it diverges for every amount of fuel. -/
theorem C10_getNumDigits_terminates_iff_nonneg :
    (∀ n : ℤ, 0 ≤ n →
      getNumDigitsLoop (n.toNat + 1) n 0 = some ((Nat.digits 10 n.toNat).length)) ∧
    getNumDigitsLoop 1 0 0 = some 0 ∧
    (∀ (fuel acc : ℕ) (n : ℤ), n < 0 → getNumDigitsLoop fuel n acc = none) ∧
    (∀ m : ℕ, m < 10 ^ digitFuel → getNumDigitsNat m = (Nat.digits 10 m).length) := by
  refine ⟨?_, by decide, ?_, ?_⟩
  · intro n hn
    have h := getNumDigitsLoop_natCast n.toNat 0
    rw [Int.toNat_of_nonneg hn] at h
    simpa using h
  · intro fuel acc n hn
    exact getNumDigitsLoop_neg fuel n acc hn
  · intro m hm
    exact getNumDigitsNat_eq_digits_length hm

open EngineLemmas in
/-- Witness for C10 at the concrete inputs `37` and `-5`. -/
theorem C10_getNumDigits_terminates_iff_nonneg_witness :
    (0 : ℤ) ≤ 37 ∧
    getNumDigitsLoop ((37 : ℤ).toNat + 1) 37 0 = some ((Nat.digits 10 (37 : ℤ).toNat).length) ∧
    (-5 : ℤ) < 0 ∧
    getNumDigitsLoop 1000 (-5) 0 = none :=
  ⟨by decide, C10_getNumDigits_terminates_iff_nonneg.1 37 (by decide), by decide,
    C10_getNumDigits_terminates_iff_nonneg.2.2.1 1000 0 (-5) (by decide)⟩

open EngineLemmas in
/-- Claim C8 (spec section 8, "End-to-end example"; test
`TestCalculateScaledExchangeRateFromPriceString`): for a Generic/Generic pair
the price string `"3"` converts on the BID side to the canonical rate
`3 * 10^38`, while the ASK-side conversion of the same price yields
`33333333333333333333333333333333333334`, the ceiling of `10^38 / 3` — one
more than the floored quotient, so the forward parse floors while the
ASK-side inversion rounds with a ceiling, exactly as documented. -/
theorem C8_ask_price_inversion_ceils :
    ∀ buyingCoin sellingCoin : String, buyingCoin ≠ "" → sellingCoin ≠ "" →
      CalculateScaledExchangeRateFromPriceString buyingCoin sellingCoin "3"
          DAOCoinLimitOrderOperationTypeStringBID =
        .ok 300000000000000000000000000000000000000 ∧
      CalculateScaledExchangeRateFromPriceString buyingCoin sellingCoin "3"
          DAOCoinLimitOrderOperationTypeStringASK =
        .ok 33333333333333333333333333333333333334 ∧
      (33333333333333333333333333333333333334 : ℕ) = OneE38 / 3 + 1 ∧
      OneE38 % 3 ≠ 0 := by
  intro buyingCoin sellingCoin hbuy hsell
  have hparse : ParseDecimalToScaled "3" OneE38 = .ok (3 * 10 ^ 38) := by decide
  refine ⟨?_, ?_, by decide, by decide⟩
  · rw [CalculateScaledExchangeRateFromPriceString, hparse, exceptBind_ok]
    simp only [show (DAOCoinLimitOrderOperationTypeStringBID =
      DAOCoinLimitOrderOperationTypeStringASK) = False by simp [
        DAOCoinLimitOrderOperationTypeStringBID,
        DAOCoinLimitOrderOperationTypeStringASK], if_false]
    rw [if_neg (by norm_num), applyDESOScalingCorrection, if_neg hbuy, if_neg hsell]
    norm_num
  · rw [CalculateScaledExchangeRateFromPriceString, hparse, exceptBind_ok]
    simp only [if_pos rfl]
    rw [show (OneE38 * OneE38 + 3 * 10 ^ 38 - 1) / (3 * 10 ^ 38)
        = 33333333333333333333333333333333333334 by decide]
    rw [if_neg (by norm_num), applyDESOScalingCorrection, if_neg hbuy, if_neg hsell]
    simp

open EngineLemmas in
/-- Witness for C8 at a concrete Generic/Generic pair. -/
theorem C8_ask_price_inversion_ceils_witness :
    ("coinA" : String) ≠ "" ∧ ("coinB" : String) ≠ "" ∧
    CalculateScaledExchangeRateFromPriceString "coinA" "coinB" "3"
        DAOCoinLimitOrderOperationTypeStringASK =
      .ok 33333333333333333333333333333333333334 :=
  ⟨by decide, by decide,
    (C8_ask_price_inversion_ceils "coinA" "coinB" (by decide) (by decide)).2.1⟩

open EngineLemmas in
/-- Witness for C3 at the price `1.0` (`n = 10^38`) for all three pair
configurations. -/
theorem C3_rate_roundtrip_witness :
    (0 < (10 ^ 38 : ℕ) ∧ getNumDigitsNat ((10 ^ 38 : ℕ) / 10 ^ 38) ≤ 15) ∧
    (CalculateScaledExchangeRate "coinA" "coinB" (((10 ^ 38 : ℕ) : ℚ) / 10 ^ 38)).bind
        (CalculateExchangeRateAsFloat "coinA" "coinB") =
      Except.ok (((10 ^ 38 : ℕ) : ℚ) / 10 ^ 38) ∧
    (CalculateScaledExchangeRate "" "coinB" (((10 ^ 38 : ℕ) : ℚ) / 10 ^ 38)).bind
        (CalculateExchangeRateAsFloat "" "coinB") =
      Except.ok (((10 ^ 38 : ℕ) : ℚ) / 10 ^ 38) ∧
    (CalculateScaledExchangeRate "coinA" "" (((10 ^ 38 : ℕ) : ℚ) / 10 ^ 38)).bind
        (CalculateExchangeRateAsFloat "coinA" "") =
      Except.ok (((10 ^ 38 : ℕ) : ℚ) / 10 ^ 38) := by
  have hfloat : float64Round (((10 ^ 38 : ℕ) : ℚ) / 10 ^ 38) = ((10 ^ 38 : ℕ) : ℚ) / 10 ^ 38 := by
    rw [show (((10 ^ 38 : ℕ) : ℚ) / 10 ^ 38) = 1 by norm_num]
    exact float64Round_one
  have hdig : getNumDigitsNat ((10 ^ 38 : ℕ) / 10 ^ 38) ≤ 15 := by decide
  have hdvd : 10 ^ (23 + getNumDigitsNat ((10 ^ 38 : ℕ) / 10 ^ 38)) ∣ (10 ^ 38 : ℕ) := by
    rw [show getNumDigitsNat ((10 ^ 38 : ℕ) / 10 ^ 38) = 1 by decide]
    exact pow_dvd_pow 10 (by norm_num)
  exact ⟨⟨by norm_num, hdig⟩,
    C3_rate_roundtrip "coinA" "coinB" (10 ^ 38) (by norm_num)
      (Nat.pow_lt_pow_right (by norm_num) (by decide)) hdig hdvd hfloat,
    C3_rate_roundtrip "" "coinB" (10 ^ 38) (by norm_num)
      (Nat.pow_lt_pow_right (by norm_num) (by decide)) hdig hdvd hfloat,
    C3_rate_roundtrip "coinA" "" (10 ^ 38) (by norm_num)
      (Nat.pow_lt_pow_right (by norm_num) (by decide)) hdig hdvd hfloat⟩

namespace EngineLemmas

theorem fractionDigitCount_sprintfFixedNat (a N : ℕ) :
    fractionDigitCount (sprintfFixedNat a N) = N := by
  by_cases hN : N = 0
  · subst hN
    rw [sprintfFixedNat, if_pos rfl, fractionDigitCount,
      splitOnDot_of_not_mem (not_dot_of_all_digits (natToString_all_digits a)),
      fractionPartLen]
    rfl
  · have hN1 : 1 ≤ N := Nat.one_le_iff_ne_zero.mpr hN
    have hmodlt : a % 10 ^ N < 10 ^ N := Nat.mod_lt _ (by positivity)
    have hpaddig : ∀ c ∈ padLeftZeros (natToString (a % 10 ^ N)).data N,
        isDigitChar c = true := by
      intro c hc
      rw [padLeftZeros, List.mem_append] at hc
      rcases hc with hc | hc
      · rw [List.mem_replicate] at hc
        rw [hc.2]; decide
      · exact natToString_all_digits _ c hc
    rw [sprintfFixedNat, if_neg hN, fractionDigitCount]
    rw [show (String.mk ((natToString (a / 10 ^ N)).data ++
        '.' :: padLeftZeros (natToString (a % 10 ^ N)).data N)).data
        = (natToString (a / 10 ^ N)).data ++
          '.' :: padLeftZeros (natToString (a % 10 ^ N)).data N from rfl]
    rw [splitOnDot_append (not_dot_of_all_digits (natToString_all_digits _))
      (not_dot_of_all_digits hpaddig), fractionPartLen]
    exact padLeftZeros_length (natToString_length_le hmodlt hN1)

end EngineLemmas

open EngineLemmas in
/-- Claim C6 (spec section 4.5, `TruncateToSignificantDigits`): for every
non-negative float64 value `f` (every such value is below `2^1024`), if the
integer part of `f` has `d ≤ 15` digits the output renders `f` in fixed-point
with exactly `15 - d` digits after the decimal point; if `d > 15` the output
is `trunc(f) / 10^(d-15) * 10^(d-15)` rendered as an integer with `".0"`
appended; in particular the float64 literal `1234567890123456789.0` (whose
exact value is `1234567890123456768`) yields `"1234567890123450000.0"`. -/
theorem C6_format_truncates_to_15_significant_digits :
    (∀ f : ℚ, 0 ≤ f → f < 2 ^ 1024 →
      (getNumDigitsNat (ratTrunc f).toNat ≤ 15 →
        formatFloatAsString f = sprintfFixed f (15 - getNumDigitsNat (ratTrunc f).toNat) ∧
        fractionDigitCount (formatFloatAsString f)
          = 15 - getNumDigitsNat (ratTrunc f).toNat) ∧
      (15 < getNumDigitsNat (ratTrunc f).toNat →
        formatFloatAsString f = String.mk
          ((natToString ((ratTrunc f).toNat / 10 ^ (getNumDigitsNat (ratTrunc f).toNat - 15)
            * 10 ^ (getNumDigitsNat (ratTrunc f).toNat - 15))).data ++ ['.', '0']))) ∧
    formatFloatAsString ((1234567890123456768 : ℕ) : ℚ) = "1234567890123450000.0" := by
  constructor
  · intro f _ _
    constructor
    · intro hd
      have heq : formatFloatAsString f
          = sprintfFixed f (15 - getNumDigitsNat (ratTrunc f).toNat) := by
        rw [formatFloatAsString]
        simp only [if_pos hd]
      refine ⟨heq, ?_⟩
      rw [heq, sprintfFixed, fractionDigitCount_sprintfFixedNat]
    · intro hd
      rw [formatFloatAsString]
      simp only [if_neg (by omega : ¬ getNumDigitsNat (ratTrunc f).toNat ≤ 15)]
  · rw [formatFloatAsString_natCast]
    decide

open EngineLemmas in
/-- Witness for C6 at the float64 value of the literal `1234567890123456789.0`. -/
theorem C6_format_truncates_to_15_significant_digits_witness :
    ((0 : ℚ) ≤ ((1234567890123456768 : ℕ) : ℚ) ∧
      ((1234567890123456768 : ℕ) : ℚ) < 2 ^ 1024 ∧
      15 < getNumDigitsNat (ratTrunc ((1234567890123456768 : ℕ) : ℚ)).toNat) ∧
    formatFloatAsString ((1234567890123456768 : ℕ) : ℚ) = String.mk
      ((natToString ((ratTrunc ((1234567890123456768 : ℕ) : ℚ)).toNat
        / 10 ^ (getNumDigitsNat (ratTrunc ((1234567890123456768 : ℕ) : ℚ)).toNat - 15)
        * 10 ^ (getNumDigitsNat (ratTrunc ((1234567890123456768 : ℕ) : ℚ)).toNat - 15))).data
        ++ ['.', '0']) := by
  have hd : 15 < getNumDigitsNat (ratTrunc ((1234567890123456768 : ℕ) : ℚ)).toNat := by
    rw [ratTrunc_natCast, Int.toNat_natCast]
    decide
  refine ⟨⟨by positivity, by norm_num, hd⟩, ?_⟩
  exact (C6_format_truncates_to_15_significant_digits.1
    ((1234567890123456768 : ℕ) : ℚ) (by positivity) (by norm_num)).2 hd

namespace EngineLemmas

theorem floor_toNat_cast_le {f : ℚ} (hf : 0 ≤ f) : ((⌊f⌋.toNat : ℕ) : ℚ) ≤ f := by
  have h0 : ((⌊f⌋.toNat : ℕ) : ℤ) = ⌊f⌋ := Int.toNat_of_nonneg (Int.floor_nonneg.mpr hf)
  have h1 : ((⌊f⌋.toNat : ℕ) : ℚ) = ((⌊f⌋ : ℤ) : ℚ) := by exact_mod_cast h0
  rw [h1]
  exact Int.floor_le f

theorem float64Round_pow2_128 : float64Round ((2 : ℚ) ^ 128) = (2 : ℚ) ^ 128 := by
  have h1 : (2 : ℚ) ^ (128 : ℤ) ≤ (2 : ℚ) ^ 128 := by
    rw [show ((128 : ℤ)) = ((128 : ℕ) : ℤ) by norm_num, zpow_natCast]
  have h2 : (2 : ℚ) ^ 128 < 2 ^ ((128 : ℤ) + 1) := by
    rw [show ((128 : ℤ) + 1) = ((129 : ℕ) : ℤ) by norm_num, zpow_natCast]
    norm_num
  have hk : roundHalfEvenInt ((2 : ℚ) ^ 128 / 2 ^ ((128 : ℤ) - 52)) = 2 ^ 52 := by
    have hq : (2 : ℚ) ^ 128 / 2 ^ ((128 : ℤ) - 52) = ((2 ^ 52 : ℤ) : ℚ) := by
      rw [show ((128 : ℤ) - 52) = ((76 : ℕ) : ℤ) by norm_num, zpow_natCast]
      push_cast
      rw [div_eq_iff (by positivity)]
      norm_num
    rw [hq, roundHalfEvenInt_intCast]
  have h := float64Round_eval h1 h2 hk
  rw [h, show ((128 : ℤ) - 52) = ((76 : ℕ) : ℤ) by norm_num, zpow_natCast]
  push_cast
  norm_num

theorem decimalStrVal_append_dot_zero {ds : List Char} {m : ℕ}
    (hds : ds = (natToString m).data) (hm : m < 10 ^ digitFuel) :
    decimalStrVal (String.mk (ds ++ ['.', '0'])) = (m : ℚ) := by
  subst hds
  have hsp : splitOnDot (String.mk ((natToString m).data ++ '.' :: ['0'])).data
      = some ((natToString m).data, ['0']) :=
    splitOnDot_append (not_dot_of_all_digits (natToString_all_digits _)) (by decide)
  rw [show (['.', '0'] : List Char) = '.' :: ['0'] from rfl, decimalStrVal, hsp, decimalParts]
  rw [digitsVal_natToString hm, show digitsVal ['0'] = 0 by decide]
  norm_num

theorem two_pow_1024_lt : (2 : ℕ) ^ 1024 < 10 ^ digitFuel := by
  have h1 : (2 : ℕ) ^ 1024 = (2 ^ 256) ^ 4 := by rw [← pow_mul]
  have h2 : ((2 : ℕ) ^ 256) ^ 4 ≤ (10 ^ 99) ^ 4 :=
    Nat.pow_le_pow_left (by norm_num) 4
  have h3 : ((10 : ℕ) ^ 99) ^ 4 < 10 ^ digitFuel := by
    rw [← pow_mul, digitFuel]
    exact Nat.pow_lt_pow_right (by norm_num) (by norm_num)
  omega

end EngineLemmas

open EngineLemmas in
/-- Claim C5, counterexample: the claim "the rate converter accepts exactly the
decimal inputs in `[10^-38, 10^38)`" is false: the float64 value `2^128`
(≈ 3.40 × 10^38, outside that interval, and exactly representable:
`float64Round` fixes it) is accepted with scaled value
`340282366920938 * 10^62 < 2^256`. -/
theorem C5_counterexample_pow2_128_accepted :
    CalculateScaledExchangeRate "coinA" "coinB" ((2 : ℚ) ^ 128) =
      .ok (340282366920938 * 10 ^ 62) ∧
    (10 : ℚ) ^ 38 < (2 : ℚ) ^ 128 ∧
    float64Round ((2 : ℚ) ^ 128) = (2 : ℚ) ^ 128 := by
  refine ⟨?_, by norm_num, float64Round_pow2_128⟩
  rw [CalculateScaledExchangeRate, CalculateScaledExchangeRateFromString,
    show ((2 : ℚ) ^ 128) = ((2 ^ 128 : ℕ) : ℚ) by push_cast; ring,
    formatFloatAsString_natCast]
  decide

open EngineLemmas in
/-- Claim C5, amended (spec section 4.3 "Domain bounds", corrected): every input
whose raw scaled value parses to exactly zero fails with a range error and
every input whose scaling against `RATE_SCALE` reaches `2^256` fails with an
overflow error (e.g. `10^40`), and every accepted value is a positive integer
below `2^256`; but the acceptance region is not exactly `[10^-38, 10^38)` —
its true upper boundary is `2^256 / 10^38 ≈ 1.158 × 10^39` (see the
counterexample `2^128`), and on the float path values below `10^-15` are
already formatted to zero. -/
theorem C5_amended_zero_and_overflow_rejection :
    (∀ (buyingCoin sellingCoin : String) (x : ℚ),
      ParseDecimalToScaled (formatFloatAsString x) OneE38 = .error .rangeError →
      CalculateScaledExchangeRate buyingCoin sellingCoin x = .error .rangeError) ∧
    (∀ (buyingCoin sellingCoin : String) (x : ℚ),
      ParseDecimalToScaled (formatFloatAsString x) OneE38 = .error .overflowError →
      CalculateScaledExchangeRate buyingCoin sellingCoin x = .error .overflowError) ∧
    (∀ buyingCoin sellingCoin : String,
      CalculateScaledExchangeRate buyingCoin sellingCoin ((10 : ℚ) ^ 40) =
        .error .overflowError) ∧
    (∀ (buyingCoin sellingCoin : String) (x : ℚ) (r : ℕ),
      CalculateScaledExchangeRate buyingCoin sellingCoin x = .ok r →
      0 < r ∧ r < uint256Bound) := by
  refine ⟨?_, ?_, ?_, ?_⟩
  · intro buyingCoin sellingCoin x h
    rw [CalculateScaledExchangeRate, CalculateScaledExchangeRateFromString, h,
      exceptBind_error]
  · intro buyingCoin sellingCoin x h
    rw [CalculateScaledExchangeRate, CalculateScaledExchangeRateFromString, h,
      exceptBind_error]
  · intro buyingCoin sellingCoin
    rw [CalculateScaledExchangeRate, CalculateScaledExchangeRateFromString,
      show ((10 : ℚ) ^ 40) = ((10 ^ 40 : ℕ) : ℚ) by push_cast; ring,
      formatFloatAsString_natCast,
      show ParseDecimalToScaled
        (if getNumDigitsNat (10 ^ 40) ≤ 15 then
          sprintfFixedNat (10 ^ 40 * 10 ^ (15 - getNumDigitsNat (10 ^ 40)))
            (15 - getNumDigitsNat (10 ^ 40))
        else
          String.mk ((natToString (10 ^ 40 / 10 ^ (getNumDigitsNat (10 ^ 40) - 15)
            * 10 ^ (getNumDigitsNat (10 ^ 40) - 15))).data ++ ['.', '0'])) OneE38
        = .error .overflowError by decide,
      exceptBind_error]
  · intro buyingCoin sellingCoin x r h
    rw [CalculateScaledExchangeRate, CalculateScaledExchangeRateFromString] at h
    rcases hp : ParseDecimalToScaled (formatFloatAsString x) OneE38 with e | raw
    · rw [hp, exceptBind_error] at h
      exact absurd h (by simp)
    · rw [hp, exceptBind_ok] at h
      obtain ⟨hraw, hrawlt⟩ := ParseDecimalToScaled_ok hp
      rw [if_neg (by omega), applyDESOScalingCorrection, K_eq] at h
      by_cases hbuy : buyingCoin = ""
      · rw [if_pos hbuy] at h
        by_cases hover : uint256Bound ≤ raw * 10 ^ 9
        · rw [if_pos hover] at h
          exact absurd h (by simp)
        · rw [if_neg hover] at h
          have : r = raw * 10 ^ 9 := by
            exact ((Except.ok.injEq _ _).mp h).symm
          subst this
          exact ⟨by positivity, by omega⟩
      · rw [if_neg hbuy] at h
        by_cases hsell : sellingCoin = ""
        · rw [if_pos hsell] at h
          by_cases hq : raw / 10 ^ 9 = 0
          · rw [if_pos hq] at h
            exact absurd h (by simp)
          · rw [if_neg hq] at h
            have : r = raw / 10 ^ 9 := ((Except.ok.injEq _ _).mp h).symm
            subst this
            have : raw / 10 ^ 9 ≤ raw := Nat.div_le_self _ _
            exact ⟨by omega, by omega⟩
        · rw [if_neg hsell] at h
          have : r = raw := ((Except.ok.injEq _ _).mp h).symm
          subst this
          exact ⟨hraw, hrawlt⟩

open EngineLemmas in
/-- Witness for the amended C5: the float `0.0` parses to a raw zero and the
converter surfaces the range error; `10^40` overflows. -/
theorem C5_amended_zero_and_overflow_rejection_witness :
    ParseDecimalToScaled (formatFloatAsString (0 : ℚ)) OneE38 = .error .rangeError ∧
    CalculateScaledExchangeRate "coinA" "coinB" (0 : ℚ) = .error .rangeError ∧
    CalculateScaledExchangeRate "coinA" "coinB" ((10 : ℚ) ^ 40) = .error .overflowError :=
  ⟨parse_format_zero OneE38,
    C5_amended_zero_and_overflow_rejection.1 "coinA" "coinB" 0 (parse_format_zero OneE38),
    C5_amended_zero_and_overflow_rejection.2.2.1 "coinA" "coinB"⟩

open EngineLemmas in
/-- Claim C7, counterexample: the claim that the canonical-to-decimal conversions
truncate toward zero and never round the retained digits up is false: the
scaled value `1.99999999999999995 × 10^38` (whose exact decimal expansion has
18 significant digits) converts to the float `2.0`, strictly greater than the
exact value — the final `strconv.ParseFloat` rounds to the nearest binary64
(ties to even) instead of truncating. -/
theorem C7_counterexample_conversion_rounds_up :
    CalculateExchangeRateAsFloat "coinA" "coinB" (199999999999999995 * 10 ^ 21) =
      .ok 2 ∧
    ((199999999999999995 * 10 ^ 21 : ℕ) : ℚ) / 10 ^ 38 < 2 := by
  constructor
  · rw [CalculateExchangeRateAsFloat]
    simp only [if_neg (show ¬ ("coinA" : String) = "" by decide),
      if_neg (show ¬ ("coinB" : String) = "" by decide)]
    have hv : (199999999999999995 * 10 ^ 21 : ℕ) < 10 ^ digitFuel := by
      have h39 : (199999999999999995 * 10 ^ 21 : ℕ) < 10 ^ 39 := by norm_num
      exact lt_of_lt_of_le h39 (Nat.pow_le_pow_right (by norm_num) (by decide))
    rw [decimalStrVal_renderScaled38 hv]
    rw [show (((199999999999999995 * 10 ^ 21 : ℕ) : ℚ) / 10 ^ 38)
        = (199999999999999995 : ℚ) / 10 ^ 17 by push_cast; ring_nf]
    rw [float64Round_two_minus_eps]
  · push_cast
    norm_num

open EngineLemmas in
/-- Claim C7, amended (spec section 3 `DecimalValue`, corrected): the
canonical-to-decimal conversions render every digit of the canonical value
exactly in decimal-string form and then round to the nearest binary64 value
(ties to even) at the float boundary — they do not truncate, and can round the
retained digits up (see the counterexample); only the significant-digit
limiter's large-integer branch truncates toward zero. -/
theorem C7_amended_conversions_round_to_nearest :
    (∀ (buyingCoin sellingCoin : String) (v : ℕ),
      buyingCoin ≠ "" → sellingCoin ≠ "" → v < 10 ^ digitFuel →
      CalculateExchangeRateAsFloat buyingCoin sellingCoin v =
        .ok (float64Round ((v : ℚ) / 10 ^ 38))) ∧
    (∀ (buyingCoin sellingCoin operationType : String) (v : ℕ),
      v < 10 ^ digitFuel →
      isCoinToFillDESO buyingCoin sellingCoin operationType = false →
      CalculateQuantityToFillAsFloat buyingCoin sellingCoin operationType v =
        .ok (float64Round ((v : ℚ) / 10 ^ 18))) ∧
    (∀ f : ℚ, 0 ≤ f → f < 2 ^ 1024 →
      15 < getNumDigitsNat (ratTrunc f).toNat →
      decimalStrVal (formatFloatAsString f) ≤ f) := by
  refine ⟨?_, ?_, ?_⟩
  · intro buyingCoin sellingCoin v hbuy hsell hv
    rw [CalculateExchangeRateAsFloat]
    simp only [if_neg hbuy, if_neg hsell]
    rw [decimalStrVal_renderScaled38 hv]
  · intro buyingCoin sellingCoin operationType v hv hfill
    rw [CalculateQuantityToFillAsFloat, hfill]
    simp only [Bool.false_eq_true, if_false]
    rw [calculateQuantityToFillFromDAOCoinBaseUnitsToFloat,
      calculateQuantityToFillAsFloatWithScalingFactor,
      show BaseUnitsPerCoin = 10 ^ 18 from rfl,
      decimalStrVal_renderScaled (by norm_num) (by rw [digitFuel]; omega) hv]
  · intro f hf hrange hd
    have ht : (ratTrunc f).toNat < 10 ^ digitFuel := by
      have hfl : ratTrunc f = ⌊f⌋ := ratTrunc_eq_floor hf
      have h1 : ((ratTrunc f).toNat : ℚ) ≤ f := by
        rw [hfl]
        exact floor_toNat_cast_le hf
      have h2 : ((ratTrunc f).toNat : ℚ) < ((2 ^ 1024 : ℕ) : ℚ) := by
        push_cast
        linarith
      have h3 : (ratTrunc f).toNat < 2 ^ 1024 := by exact_mod_cast h2
      exact lt_trans h3 two_pow_1024_lt
    set t := (ratTrunc f).toNat with ht_def
    set k := getNumDigitsNat t - 15 with hk_def
    have hbig : formatFloatAsString f
        = String.mk ((natToString (t / 10 ^ k * 10 ^ k)).data ++ ['.', '0']) := by
      rw [formatFloatAsString]
      simp only [if_neg (by omega : ¬ getNumDigitsNat t ≤ 15)]
    have hm : t / 10 ^ k * 10 ^ k < 10 ^ digitFuel :=
      lt_of_le_of_lt (Nat.div_mul_le_self t _) ht
    rw [hbig, decimalStrVal_append_dot_zero rfl hm]
    have hmt : ((t / 10 ^ k * 10 ^ k : ℕ) : ℚ) ≤ (t : ℚ) := by
      exact_mod_cast Nat.div_mul_le_self t (10 ^ k)
    have htf : ((t : ℕ) : ℚ) ≤ f := by
      rw [ht_def, ratTrunc_eq_floor hf]
      exact floor_toNat_cast_le hf
    linarith

open EngineLemmas in
/-- Witness for the amended C7 at the scaled value `10^38` (exact value `1`). -/
theorem C7_amended_conversions_round_to_nearest_witness :
    (("coinA" : String) ≠ "" ∧ ("coinB" : String) ≠ "" ∧ (10 ^ 38 : ℕ) < 10 ^ digitFuel) ∧
    CalculateExchangeRateAsFloat "coinA" "coinB" (10 ^ 38) =
      .ok (float64Round (((10 ^ 38 : ℕ) : ℚ) / 10 ^ 38)) := by
  have hv : (10 ^ 38 : ℕ) < 10 ^ digitFuel :=
    Nat.pow_lt_pow_right (by norm_num) (by decide)
  exact ⟨⟨by decide, by decide, hv⟩,
    C7_amended_conversions_round_to_nearest.1 "coinA" "coinB" (10 ^ 38)
      (by decide) (by decide) hv⟩
